import Mathlib

/-!
Verification of the essay-scoring pipeline in `main.py`.

The pipeline reads essays, scores each against five rubric criteria through
an LLM call whose textual reply is parsed as a Python `float`, maps scores to
rubric descriptions, aggregates records and writes a JSON report.

Python runtime values are embedded as follows: Python `float` is idealised as
`PyFloat` (an exact rational, or an infinity, or NaN); Python `int` is `Int`;
Python `str` is `String`; Python dicts appearing in the program are
association lists in insertion order.  Stateful behaviour (directory listing,
LLM calls, the output file) is passed explicitly.
-/

/-- The whitespace characters removed by Python `str.strip()` (ASCII part;
the pipeline only ever strips LLM replies, modelled as ASCII-spaced text). -/
def isPySpace (c : Char) : Bool :=
  [' ', '\t', '\n', '\r', '\x0b', '\x0c'].contains c

/-- Python `str.strip()`: remove leading and trailing whitespace. -/
def pyStrip (s : String) : String :=
  ⟨((s.data.dropWhile isPySpace).reverse.dropWhile isPySpace).reverse⟩

/-- Idealised Python `float` value: an exact rational, a signed infinity or
NaN.  (Rounding to binary64 is abstracted away; none of the verified claims
depends on the rounding of decimal literals.) -/
inductive PyFloat where
  | finite (q : ℚ)
  | inf (neg : Bool)
  | nan
deriving DecidableEq, Repr

/-- Numeric value of an ASCII digit character. -/
def digitVal (c : Char) : Nat := c.toNat - 48

/-- Scan a maximal run of ASCII digits in which single underscores may occur
between digits (PEP 515, as accepted by Python `float`).  Returns the value
of the digits read, how many digits were read, and the unconsumed rest.
A leading underscore, a doubled underscore or a trailing underscore is not
consumed, so such inputs leave a nonempty rest behind. -/
def readUDigits : List Char → Nat → Nat → Nat × Nat × List Char
  | [], acc, cnt => (acc, cnt, [])
  | c :: cs, acc, cnt =>
    if c.isDigit then
      readUDigits cs (acc * 10 + digitVal c) (cnt + 1)
    else if c = '_' ∧ cnt ≠ 0 then
      match cs with
      | c2 :: cs2 =>
        if c2.isDigit then
          readUDigits cs2 (acc * 10 + digitVal c2) (cnt + 1)
        else (acc, cnt, c :: c2 :: cs2)
      | [] => (acc, cnt, [c])
    else (acc, cnt, c :: cs)

/-- Assemble the rational value `sign * (ip.fp) * 10^ex` read from a decimal
literal: `base = ip * 10^fc + fp` over denominator `10^fc`, shifted by the
exponent. -/
def mkDecimal (neg : Bool) (base : Nat) (fc : Nat) (ex : Int) : ℚ :=
  let sgn : Int := if neg then -1 else 1
  if 0 ≤ ex then Rat.divInt (sgn * base * 10 ^ ex.toNat) (10 ^ fc)
  else Rat.divInt (sgn * base) (10 ^ (fc + (-ex).toNat))

/-- Parse the exponent suffix (already past `e`/`E`): optional sign and a
nonempty digit run, which must consume the whole rest. -/
def pyFloatExp (cs : List Char) : Option Int :=
  let (eneg, cs1) : Bool × List Char :=
    match cs with
    | '+' :: t => (false, t)
    | '-' :: t => (true, t)
    | t => (false, t)
  match readUDigits cs1 0 0 with
  | (ev, ec, []) => if ec = 0 then none else some (if eneg then -(ev : Int) else (ev : Int))
  | _ => none

/-- The body of Python `float(string)` after whitespace stripping: optional
sign, then `inf`/`infinity`/`nan` (case-insensitive) or a decimal literal
with optional fraction and exponent.  (Unicode digits and the overflow of
huge exponents to IEEE infinity are outside the model.) -/
def pyFloatAux (cs : List Char) : Option PyFloat :=
  let (neg, cs1) : Bool × List Char :=
    match cs with
    | '+' :: t => (false, t)
    | '-' :: t => (true, t)
    | t => (false, t)
  let low := cs1.map Char.toLower
  if low = ['i', 'n', 'f'] ∨ low = ['i', 'n', 'f', 'i', 'n', 'i', 't', 'y'] then
    some (.inf neg)
  else if low = ['n', 'a', 'n'] then
    some .nan
  else
    match readUDigits cs1 0 0 with
    | (ip, ic, r1) =>
      let (base, fc, digs, r2) : Nat × Nat × Nat × List Char :=
        match r1 with
        | '.' :: t =>
          match readUDigits t 0 0 with
          | (fp, fcnt, r) => (ip * 10 ^ fcnt + fp, fcnt, ic + fcnt, r)
        | r => (ip, 0, ic, r)
      if digs = 0 then none
      else
        match r2 with
        | [] => some (.finite (mkDecimal neg base fc 0))
        | 'e' :: t2 => (pyFloatExp t2).map fun ex => .finite (mkDecimal neg base fc ex)
        | 'E' :: t2 => (pyFloatExp t2).map fun ex => .finite (mkDecimal neg base fc ex)
        | _ => none

/-- Python `float(string)`: strip whitespace, then parse per `pyFloatAux`.
`none` models the `ValueError` that `float` raises on non-numeric text. -/
def pyFloat (s : String) : Option PyFloat :=
  pyFloatAux (pyStrip s).data

/-- `NumberOutputParser.parse` (main.py lines 96-102): `float(text.strip())`
— the explicit `.strip()` performs the whitespace removal, after which
`float`'s own stripping is a no-op, so the grammar is applied to the
stripped text; a `ValueError` is re-raised as `OutputParserException` with
the offending text in the message, modelled by the `Except.error`
branch. -/
def NumberOutputParser_parse (text : String) : Except String PyFloat :=
  match pyFloatAux (pyStrip text).data with
  | some v => .ok v
  | none => .error ("Expected numeric output, got: " ++ text)

/-- Outcome of invoking the LLM chain: either the model's raw textual reply
reaches the parser, or the chain fails in some other way (network, auth …)
before the parser runs. -/
inductive ChainOutcome where
  | reply (text : String)
  | failure (err : String)

/-- `avaliar_redacao` (main.py lines 131-153), given the chain outcome for
the essay: parse the reply as a number; only `OutputParserException` is
caught and replaced by the fallback score `0.0`; any other chain failure
propagates (`Except.error`). -/
def avaliar_redacao : ChainOutcome → Except String PyFloat
  | .failure e => .error e
  | .reply t =>
    match NumberOutputParser_parse t with
    | .ok v => .ok v
    | .error _ => .ok (.finite 0)

/-- The score the pipeline actually uses for a model reply `t` (the
`.reply` case of `avaliar_redacao`, which never propagates an error). -/
def avaliarTexto (t : String) : PyFloat :=
  match NumberOutputParser_parse t with
  | .ok v => v
  | .error _ => .finite 0

/-- Python `int(x)` on a float: truncation toward zero for finite values;
`int(inf)` raises `OverflowError` and `int(nan)` raises `ValueError`, both
modelled by `none`.  For a rational in lowest terms with positive
denominator, truncation toward zero is `Int.tdiv` of numerator by
denominator. -/
def pyInt : PyFloat → Option Int
  | .finite q => some (q.num.tdiv q.den)
  | .inf _ => none
  | .nan => none

/-- `str(int(score))` (main.py line 191): the rubric lookup key derived from
a score, when the cast does not raise. -/
def chaveScore (score : PyFloat) : Option String :=
  (pyInt score).map toString

/-- `dict.get(k)` on a Python dict, modelled as an association list in
insertion order (keys are unique in a dict, so first match is the match). -/
def dictGet {α : Type} (d : List (String × α)) (k : String) : Option α :=
  match d.find? (fun p => p.1 == k) with
  | some p => some p.2
  | none => none

/-- The fallback description synthesised at main.py line 200:
`f"Descrição não encontrada para {_s_score} em {prefixo}"`. -/
def descricaoPadrao (chave code : String) : String :=
  "Descrição não encontrada para " ++ chave ++ " em " ++ code

/-- Rubric description resolution (main.py lines 199-201):
`score_descricao.get(prefixo, {}).get(_s_score, <fallback>)`. -/
def buscaDescricao (tab : List (String × List (String × String)))
    (code chave : String) : String :=
  match dictGet tab code with
  | some inner =>
    match dictGet inner chave with
    | some d => d
    | none => descricaoPadrao chave code
  | none => descricaoPadrao chave code

/-- Key formation followed by rubric resolution for one score, as the
aggregator performs it (main.py lines 191 and 199-201); `none` when the
`int` cast raises. -/
def resolveDescricao (tab : List (String × List (String × String)))
    (code : String) (score : PyFloat) : Option String :=
  (chaveScore score).map (buscaDescricao tab code)

/-- Python `nome.replace('.txt', '')` (main.py line 181), specialised to the
pattern `".txt"` and empty replacement: scan left to right, removing every
non-overlapping occurrence of `.txt`. -/
def removeTxt : List Char → List Char
  | [] => []
  | [c] => [c]
  | [c, d] => [c, d]
  | [c, d, e] => [c, d, e]
  | c1 :: c2 :: c3 :: c4 :: rest =>
    if c1 = '.' ∧ c2 = 't' ∧ c3 = 'x' ∧ c4 = 't' then removeTxt rest
    else c1 :: removeTxt (c2 :: c3 :: c4 :: rest)

/-- Whether `.txt` occurs anywhere in the character list. -/
def hasTxt : List Char → Bool
  | [] => false
  | [_] => false
  | [_, _] => false
  | [_, _, _] => false
  | c1 :: c2 :: c3 :: c4 :: rest =>
    if c1 = '.' ∧ c2 = 't' ∧ c3 = 'x' ∧ c4 = 't' then true
    else hasTxt (c2 :: c3 :: c4 :: rest)

/-- The display name the aggregator derives from an essay filename
(main.py line 181): `redacao_nome.replace('.txt', '')`. -/
def displayName (nome : String) : String :=
  ⟨removeTxt nome.data⟩

/-- Modelled from the spec: "Strip the file extension to derive a display
name" — remove one trailing `.txt` extension, leaving the rest unchanged.
(Second definition for the refinement comparison with `displayName`.) -/
def stripTxtExtension (nome : String) : String :=
  if (String.data ".txt").isSuffixOf nome.data then
    ⟨nome.data.take (nome.data.length - 4)⟩
  else nome

/-- One entry of `avaliacoes` (main.py lines 193-202): the dict
`{'criterio': …, 'nota': …, 'descricao': …}` built per criterion. -/
structure Avaliacao where
  criterio : String
  nota : ℚ
  descricao : String
deriving DecidableEq, Repr

/-- One essay's evaluation record (main.py lines 180-184): the dict
`{'redacao_nome': …, 'nota_criterio': …, 'avaliacoes': […]}`. -/
structure AvaliacaoRedacao where
  redacao_nome : String
  nota_criterio : ℚ
  avaliacoes : List Avaliacao
deriving DecidableEq, Repr

/-- A criterion prompt as produced by `carrega_prompt` (main.py lines
108-125): the dict `{'prefixo': …, 'prompt': …}`. -/
structure Prompt where
  prefixo : String
  prompt : String
deriving DecidableEq, Repr

/-- The inner criterion loop (main.py lines 187-204) with its running state:
for each prompt, score the essay, form the rubric key `str(int(score))` —
which raises (uncaught, modelled `none`) when the score is an infinity or
NaN — record the criterion entry and add the score to the running total.
`modelo` gives the raw LLM reply for a (system prompt, essay) pair. -/
def loopCriterios (rubric : List (String × List (String × String)))
    (modelo : String → String → String) (conteudo : String) :
    List Prompt → ℚ → List Avaliacao → Option (ℚ × List Avaliacao)
  | [], nota, avs => some (nota, avs)
  | p :: ps, nota, avs =>
    match avaliarTexto (modelo p.prompt conteudo) with
    | .finite q =>
      let chave := toString (q.num.tdiv q.den)
      let descricao := buscaDescricao rubric p.prefixo chave
      loopCriterios rubric modelo conteudo ps (nota + q)
        (avs ++ [⟨p.prefixo, q, descricao⟩])
    | .inf _ => none
    | .nan => none

/-- One iteration of the aggregator's essay loop (main.py lines 178-207):
derive the display name, run the criterion loop starting from total `0.0`
and an empty `avaliacoes` list, and assemble the record; `none` when the
run aborts inside the criterion loop. -/
def processaRedacao (prompts : List Prompt)
    (rubric : List (String × List (String × String)))
    (modelo : String → String → String)
    (nome conteudo : String) : Option AvaliacaoRedacao :=
  (loopCriterios rubric modelo conteudo prompts 0 []).map fun r =>
    { redacao_nome := displayName nome
      nota_criterio := r.1
      avaliacoes := r.2 }

/-- The opening brace character (written via `Char.ofNat` throughout). -/
def lbraceC : Char := Char.ofNat 123

/-- The closing brace character. -/
def rbraceC : Char := Char.ofNat 125

mutual
/-- JSON data as `json.dump` receives it from this program.  `num m 0`
models a Python `int` with value `m`; `num m e` with `e ≥ 1` models a
Python `float` written in fixed-point decimal notation with value
`m / 10^e`.  Objects and arrays keep insertion order, as Python dicts and
lists do. -/
inductive Json where
  | null
  | bool (b : Bool)
  | num (m : Int) (e : Nat)
  | str (s : String)
  | arr (elems : JsonList)
  | obj (members : JsonObj)
deriving DecidableEq
inductive JsonList where
  | nil
  | cons (hd : Json) (tl : JsonList)
deriving DecidableEq
inductive JsonObj where
  | onil
  | ocons (key : String) (val : Json) (tl : JsonObj)
deriving DecidableEq
end

/-- Hexadecimal digit character (lowercase, as Python's `json` emits). -/
def hexDigit (n : Nat) : Char :=
  if n < 10 then Char.ofNat (48 + n) else Char.ofNat (87 + n)

/-- How Python `json.dump(…, ensure_ascii=False)` escapes one character
inside a string literal: quote and backslash, the five short control
escapes, `\u00XX` for the remaining control characters, everything else
verbatim. -/
def escapeChar (c : Char) : List Char :=
  if c = '"' then ['\\', '"']
  else if c = '\\' then ['\\', '\\']
  else if c = '\x08' then ['\\', 'b']
  else if c = '\t' then ['\\', 't']
  else if c = '\n' then ['\\', 'n']
  else if c = '\x0c' then ['\\', 'f']
  else if c = '\r' then ['\\', 'r']
  else if c.toNat < 32 then
    ['\\', 'u', '0', '0', hexDigit (c.toNat / 16), hexDigit (c.toNat % 16)]
  else [c]

/-- Escape every character of a string body. -/
def escapeChars : List Char → List Char
  | [] => []
  | c :: cs => escapeChar c ++ escapeChars cs

/-- A JSON string literal: quoted, escaped body. -/
def renderStr (s : String) : List Char :=
  '"' :: (escapeChars s.data ++ ['"'])

/-- Decimal digit character. -/
def digChar (n : Nat) : Char := Char.ofNat (48 + n)

/-- Decimal digits of `n`, most significant first, driven by fuel
(`fuel ≥ n` suffices). -/
def natDigsAux : Nat → Nat → List Char
  | 0, _ => []
  | fuel + 1, n => if n < 10 then [digChar n] else natDigsAux fuel (n / 10) ++ [digChar (n % 10)]

/-- Decimal digits of `n`, most significant first. -/
def natChars (n : Nat) : List Char := natDigsAux (n + 1) n

/-- Left-pad a digit run with zeros to width `k`. -/
def padZeros (k : Nat) (ds : List Char) : List Char :=
  List.replicate (k - ds.length) '0' ++ ds

/-- How `json.dump` writes the number `num m e`: for `e = 0` the integer
digits (Python `int`); for `e ≥ 1` fixed-point notation with exactly `e`
fraction digits (Python `repr` of a float in its non-exponent regime; the
exponent regime for very large or very small magnitudes is outside the
model, it denotes the same numeric value). -/
def renderNum (m : Int) (e : Nat) : List Char :=
  let sign : List Char := if m < 0 then ['-'] else []
  let a := m.natAbs
  if e = 0 then sign ++ natChars a
  else sign ++ natChars (a / 10 ^ e) ++ '.' :: padZeros e (natChars (a % 10 ^ e))

/-- Spaces for one indentation step of `indent=4` pretty-printing. -/
def spacesN (n : Nat) : List Char := List.replicate n ' '

mutual
/-- `json.dump(data, f, ensure_ascii=False, indent=4)` rendering, at
indentation level `lvl`: each array element / object member on its own
line indented by `4*(lvl+1)`, item separator `,`, key separator `: `,
empty containers rendered `[]` and `\x7b\x7d` inline. -/
def renderJson : Json → Nat → List Char
  | .null, _ => ['n', 'u', 'l', 'l']
  | .bool true, _ => ['t', 'r', 'u', 'e']
  | .bool false, _ => ['f', 'a', 'l', 's', 'e']
  | .num m e, _ => renderNum m e
  | .str s, _ => renderStr s
  | .arr .nil, _ => ['[', ']']
  | .arr (.cons x tl), lvl =>
    '[' :: '\n' :: (renderItems (JsonList.cons x tl) (lvl + 1) ++
      '\n' :: (spacesN (4 * lvl) ++ [']']))
  | .obj .onil, _ => [lbraceC, rbraceC]
  | .obj (.ocons k v tl), lvl =>
    lbraceC :: '\n' :: (renderMembers (JsonObj.ocons k v tl) (lvl + 1) ++
      '\n' :: (spacesN (4 * lvl) ++ [rbraceC]))
def renderItems : JsonList → Nat → List Char
  | .nil, _ => []
  | .cons x .nil, lvl => spacesN (4 * lvl) ++ renderJson x lvl
  | .cons x (.cons y tl), lvl =>
    spacesN (4 * lvl) ++ (renderJson x lvl ++
      ',' :: '\n' :: renderItems (JsonList.cons y tl) lvl)
def renderMembers : JsonObj → Nat → List Char
  | .onil, _ => []
  | .ocons k v .onil, lvl =>
    spacesN (4 * lvl) ++ (renderStr k ++ ':' :: ' ' :: renderJson v lvl)
  | .ocons k v (.ocons k2 v2 tl), lvl =>
    spacesN (4 * lvl) ++ (renderStr k ++ ':' :: ' ' :: (renderJson v lvl ++
      ',' :: '\n' :: renderMembers (JsonObj.ocons k2 v2 tl) lvl))
end

/-- The full text `json.dump` writes for `v`. -/
def json_dumps (v : Json) : String := ⟨renderJson v 0⟩

/-- JSON insignificant whitespace (RFC 8259: space, tab, LF, CR). -/
def isJsonWs (c : Char) : Bool :=
  c = ' ' ∨ c = '\t' ∨ c = '\n' ∨ c = '\r'

/-- Skip insignificant whitespace, as `json.load`'s scanner does between
tokens. -/
def skipWs : List Char → List Char
  | [] => []
  | c :: cs => if isJsonWs c then skipWs cs else c :: cs

/-- Scan a maximal run of plain ASCII digits (JSON numbers have no
underscores): value, digit count, rest. -/
def readDigits : List Char → Nat → Nat → Nat × Nat × List Char
  | [], acc, cnt => (acc, cnt, [])
  | c :: cs, acc, cnt =>
    if c.isDigit then readDigits cs (acc * 10 + digitVal c) (cnt + 1)
    else (acc, cnt, c :: cs)

/-- Parse a JSON number in the fixed-point form this program's writer
emits: optional minus, integer digits, optional fraction.  An integer
literal yields a Python `int` (`num m 0`), a literal with a fraction a
Python `float` (`num m e`, `e` = number of fraction digits).  Exponent
notation is not produced by the writer and is not modelled. -/
def parseNum (cs : List Char) : Option (Json × List Char) :=
  let (neg, cs1) : Bool × List Char :=
    match cs with
    | [] => (false, [])
    | c :: t => if c = '-' then (true, t) else (false, c :: t)
  let sgn : Nat → Int := fun n => if neg then -(n : Int) else (n : Int)
  match readDigits cs1 0 0 with
  | (ip, ic, r1) =>
    if ic = 0 then none
    else
      match r1 with
      | [] => some (.num (sgn ip) 0, [])
      | c :: t =>
        if c = '.' then
          match readDigits t 0 0 with
          | (fp, fc, r2) =>
            if fc = 0 then none else some (.num (sgn (ip * 10 ^ fc + fp)) fc, r2)
        else some (.num (sgn ip) 0, c :: t)

/-- Value of a hexadecimal digit character. -/
def hexVal (c : Char) : Option Nat :=
  if '0' ≤ c ∧ c ≤ '9' then some (c.toNat - 48)
  else if 'a' ≤ c ∧ c ≤ 'f' then some (c.toNat - 87)
  else if 'A' ≤ c ∧ c ≤ 'F' then some (c.toNat - 55)
  else none

/-- Parse a JSON string body after the opening quote, undoing the
escapes: returns the body characters and the rest after the closing
quote.  Fuel-driven (one unit per decoded character) so that the
recursion is shallow and structural; `fuel ≥` decoded length suffices. -/
def parseStrAux : Nat → List Char → Option (List Char × List Char)
  | 0, _ => none
  | _ + 1, [] => none
  | fuel + 1, c :: rest =>
    if c = '"' then some ([], rest)
    else if c = '\\' then
      match rest with
      | [] => none
      | e :: rest2 =>
        if e = '"' then (parseStrAux fuel rest2).map fun p => ('"' :: p.1, p.2)
        else if e = '\\' then (parseStrAux fuel rest2).map fun p => ('\\' :: p.1, p.2)
        else if e = '/' then (parseStrAux fuel rest2).map fun p => ('/' :: p.1, p.2)
        else if e = 'b' then (parseStrAux fuel rest2).map fun p => ('\x08' :: p.1, p.2)
        else if e = 'f' then (parseStrAux fuel rest2).map fun p => ('\x0c' :: p.1, p.2)
        else if e = 'n' then (parseStrAux fuel rest2).map fun p => ('\n' :: p.1, p.2)
        else if e = 'r' then (parseStrAux fuel rest2).map fun p => ('\r' :: p.1, p.2)
        else if e = 't' then (parseStrAux fuel rest2).map fun p => ('\t' :: p.1, p.2)
        else if e = 'u' then
          match rest2 with
          | h1 :: h2 :: h3 :: h4 :: rest3 =>
            match hexVal h1, hexVal h2, hexVal h3, hexVal h4 with
            | some a, some b, some c3, some d =>
              (parseStrAux fuel rest3).map fun p =>
                (Char.ofNat (((a * 16 + b) * 16 + c3) * 16 + d) :: p.1, p.2)
            | _, _, _, _ => none
          | _ => none
        else none
    else (parseStrAux fuel rest).map fun p => (c :: p.1, p.2)

mutual
/-- Recursive-descent JSON value parser (the scanner inside `json.load`),
fuel-driven so that the recursion is structural; `fuel ≥` the node count
of the value suffices. -/
def parseVal : Nat → List Char → Option (Json × List Char)
  | 0, _ => none
  | fuel + 1, cs =>
    match skipWs cs with
    | [] => none
    | c :: rest =>
      if c = '"' then (parseStrAux (rest.length + 1) rest).map fun p => (Json.str ⟨p.1⟩, p.2)
      else if c = 't' then
        match rest with
        | 'r' :: 'u' :: 'e' :: r => some (.bool true, r)
        | _ => none
      else if c = 'f' then
        match rest with
        | 'a' :: 'l' :: 's' :: 'e' :: r => some (.bool false, r)
        | _ => none
      else if c = 'n' then
        match rest with
        | 'u' :: 'l' :: 'l' :: r => some (.null, r)
        | _ => none
      else if c = '[' then
        match skipWs rest with
        | [] => none
        | d :: r =>
          if d = ']' then some (.arr .nil, r)
          else (parseItems fuel (d :: r)).map fun p => (Json.arr p.1, p.2)
      else if c = lbraceC then
        match skipWs rest with
        | [] => none
        | d :: r =>
          if d = rbraceC then some (.obj .onil, r)
          else (parseMembers fuel (d :: r)).map fun p => (Json.obj p.1, p.2)
      else parseNum (c :: rest)
/-- Parse one or more array items separated by `,`, consuming the closing
`]`. -/
def parseItems : Nat → List Char → Option (JsonList × List Char)
  | 0, _ => none
  | fuel + 1, cs =>
    match parseVal fuel cs with
    | none => none
    | some (v, r) =>
      match skipWs r with
      | [] => none
      | d :: r2 =>
        if d = ',' then
          match parseItems fuel r2 with
          | some p => some (.cons v p.1, p.2)
          | none => none
        else if d = ']' then some (.cons v .nil, r2)
        else none
/-- Parse one or more object members separated by `,`, consuming the
closing brace. -/
def parseMembers : Nat → List Char → Option (JsonObj × List Char)
  | 0, _ => none
  | fuel + 1, cs =>
    match skipWs cs with
    | [] => none
    | c :: rest =>
      if c = '"' then
        match parseStrAux (rest.length + 1) rest with
        | none => none
        | some (k, r) =>
          match skipWs r with
          | ':' :: r2 =>
            match parseVal fuel r2 with
            | none => none
            | some (v, r3) =>
              match skipWs r3 with
              | [] => none
              | d :: r4 =>
                if d = ',' then
                  match parseMembers fuel r4 with
                  | some p => some (.ocons ⟨k⟩ v p.1, p.2)
                  | none => none
                else if d = rbraceC then some (.ocons ⟨k⟩ v .onil, r4)
                else none
          | _ => none
      else none
end

/-- `json.load` on a file whose full text is `s`: parse one value and
require only whitespace to remain. -/
def json_loads (s : String) : Option Json :=
  match parseVal (s.data.length + 1) s.data with
  | some (v, r) => if skipWs r = [] then some v else none
  | none => none

/-- Accumulator form of the digit-run value. -/
def foldVal (acc : Nat) (ds : List Char) : Nat :=
  ds.foldl (fun a c => a * 10 + digitVal c) acc

/-- Scanning stops at this rest: it is empty or starts with a non-digit. -/
def stopOk : List Char → Prop
  | [] => True
  | c :: _ => c.isDigit = false

/-- The rest after a rendered number must not extend it: empty, or starting
with a character that is neither a digit nor a decimal point. -/
def followNum : List Char → Prop
  | [] => True
  | c :: _ => c.isDigit = false ∧ c ≠ '.'

mutual
/-- Node count of a JSON value, the fuel budget its parse needs. -/
def sizeJ : Json → Nat
  | .null => 1
  | .bool _ => 1
  | .num _ _ => 1
  | .str _ => 1
  | .arr xs => 1 + sizeL xs
  | .obj ms => 1 + sizeO ms
/-- Node count of an array tail. -/
def sizeL : JsonList → Nat
  | .nil => 0
  | .cons x tl => 1 + sizeJ x + sizeL tl
/-- Node count of an object tail. -/
def sizeO : JsonObj → Nat
  | .onil => 0
  | .ocons _ v tl => 1 + sizeJ v + sizeO tl
end

/-- Python `str.endswith(suffix)`. -/
def pyEndsWith (s suffix : String) : Bool :=
  suffix.data.isSuffixOf s.data

/-- `ler_redacao` (main.py lines 72-87) applied to a directory listing and
the file contents: keep exactly the entries ending in `.txt`, in listing
order, paired with their contents (Python builds a dict keyed by filename;
directory entries are unique, so an association list in insertion order is
the same data). -/
def ler_redacao (listagem : List String) (conteudos : String → String) :
    List (String × String) :=
  (listagem.filter fun nome => pyEndsWith nome ".txt").map
    fun nome => (nome, conteudos nome)

/-- The non-fatal warning at main.py lines 85-86: emitted exactly when the
loader found no `.txt` file. -/
def avisoSemRedacoes (redacoes : List (String × String)) : Bool :=
  redacoes.isEmpty

/-- The essay loop of `__main__` (main.py lines 178-207) over all loaded
essays, in order; a crash in any iteration aborts the whole run
(`none`) with nothing written. -/
def processaTodas (prompts : List Prompt)
    (rubric : List (String × List (String × String)))
    (modelo : String → String → String) :
    List (String × String) → Option (List AvaliacaoRedacao)
  | [] => some []
  | (nome, conteudo) :: resto =>
    match processaRedacao prompts rubric modelo nome conteudo with
    | some r =>
      match processaTodas prompts rubric modelo resto with
      | some rs => some (r :: rs)
      | none => none
    | none => none

/-- Number of factors `p` in `n`, fuel-driven. -/
def facCount (p : Nat) : Nat → Nat → Nat
  | 0, _ => 0
  | fuel + 1, n => if 2 ≤ p ∧ p ∣ n ∧ n ≠ 0 then 1 + facCount p fuel (n / p) else 0

/-- Multiplicity of the prime `p` in `n`. -/
def vpCount (p n : Nat) : Nat := facCount p n n

/-- Smallest power-of-ten exponent (at least 1, since Python floats are
always written with a decimal point) that can carry `q` as a fixed-point
decimal when `q` is decimal-representable. -/
def decExp (q : ℚ) : Nat := max 1 (max (vpCount 2 q.den) (vpCount 5 q.den))

/-- `q` is exactly representable as a fixed-point decimal.  Every value a
Python binary float can hold satisfies this (binary floats are dyadic
rationals). -/
def isDecimal (q : ℚ) : Prop := q.den ∣ 10 ^ decExp q

/-- Encode a Python float value as the JSON number `json.dump` writes for
it: `m / 10^e` in fixed-point with `e ≥ 1` fraction digits. -/
def encNum (q : ℚ) : Json :=
  .num (q.num * ((10 ^ decExp q) / q.den : Nat)) (decExp q)

/-- Rational value denoted by a JSON number. -/
def jsonNumVal (m : Int) (e : Nat) : ℚ := Rat.divInt m (10 ^ e)

/-- Read a JSON number back as a Python float value. -/
def decodeNum : Json → Option ℚ
  | .num m e => some (jsonNumVal m e)
  | _ => none

/-- The JSON object written for one `avaliacoes` entry (insertion order of
main.py lines 193-202). -/
def encodeAvaliacao (a : Avaliacao) : Json :=
  .obj (.ocons "criterio" (.str a.criterio)
    (.ocons "nota" (encNum a.nota)
      (.ocons "descricao" (.str a.descricao) .onil)))

/-- Encode the `avaliacoes` list. -/
def encodeAvaliacoes : List Avaliacao → JsonList
  | [] => .nil
  | a :: resto => .cons (encodeAvaliacao a) (encodeAvaliacoes resto)

/-- The JSON object written for one essay record (insertion order of
main.py lines 180-184). -/
def encodeRegistro (r : AvaliacaoRedacao) : Json :=
  .obj (.ocons "redacao_nome" (.str r.redacao_nome)
    (.ocons "nota_criterio" (encNum r.nota_criterio)
      (.ocons "avaliacoes" (.arr (encodeAvaliacoes r.avaliacoes)) .onil)))

/-- Encode the full result sequence. -/
def encodeRegistros : List AvaliacaoRedacao → JsonList
  | [] => .nil
  | r :: resto => .cons (encodeRegistro r) (encodeRegistros resto)

/-- The JSON value `avaliacao_geral` holds when `json.dump` receives it. -/
def encodeRegistrosJson (rs : List AvaliacaoRedacao) : Json :=
  .arr (encodeRegistros rs)

/-- Decode one `avaliacoes` entry, checking the field names. -/
def decodeAvaliacao : Json → Option Avaliacao
  | .obj (.ocons "criterio" (.str c)
      (.ocons "nota" n (.ocons "descricao" (.str d) .onil))) =>
    (decodeNum n).map fun q => ⟨c, q, d⟩
  | _ => none

/-- Decode the `avaliacoes` list. -/
def decodeAvaliacoes : JsonList → Option (List Avaliacao)
  | .nil => some []
  | .cons a resto =>
    match decodeAvaliacao a, decodeAvaliacoes resto with
    | some x, some xs => some (x :: xs)
    | _, _ => none

/-- Decode one essay record, checking the field names. -/
def decodeRegistro : Json → Option AvaliacaoRedacao
  | .obj (.ocons "redacao_nome" (.str nome)
      (.ocons "nota_criterio" n (.ocons "avaliacoes" (.arr avs) .onil))) =>
    match decodeNum n, decodeAvaliacoes avs with
    | some q, some xs => some ⟨nome, q, xs⟩
    | _, _ => none
  | _ => none

/-- Decode a list of essay records. -/
def decodeRegistrosList : JsonList → Option (List AvaliacaoRedacao)
  | .nil => some []
  | .cons r resto =>
    match decodeRegistro r, decodeRegistrosList resto with
    | some x, some xs => some (x :: xs)
    | _, _ => none

/-- Decode the full result sequence. -/
def decodeRegistros : Json → Option (List AvaliacaoRedacao)
  | .arr l => decodeRegistrosList l
  | _ => none

/-- All scores in a record are decimal-representable (true of every record
the pipeline builds, since scores are Python floats). -/
def RegistroDecimal (r : AvaliacaoRedacao) : Prop :=
  isDecimal r.nota_criterio ∧ ∀ a ∈ r.avaliacoes, isDecimal a.nota

/-- An idealised file system: the set of existing directories (as segment
lists) and a map from paths to file contents. -/
structure FileSystem where
  dirs : List (List String)
  files : List (List String × String)

/-- `Path.mkdir(parents=True, exist_ok=True)`: the directory and all its
ancestors exist afterwards; existing entries are untouched. -/
def mkdirParents (fs : FileSystem) (dir : List String) : FileSystem :=
  { fs with dirs := dir.inits ++ fs.dirs }

/-- Directory existence. -/
def dirExists (fs : FileSystem) (dir : List String) : Bool :=
  fs.dirs.contains dir

/-- Replace or create the file at `p`. -/
def setFile : List (List String × String) → List String → String → List (List String × String)
  | [], p, c => [(p, c)]
  | (q, d) :: resto, p, c =>
    if q = p then (p, c) :: resto else (q, d) :: setFile resto p c

/-- `open(path, "w")` followed by writing `conteudo`: fails
(`FileNotFoundError`, modelled `none`) when the parent directory does not
exist; otherwise truncates/creates the file with the new content. -/
def openWrite (fs : FileSystem) (dir : List String) (nome : String)
    (conteudo : String) : Option FileSystem :=
  if dirExists fs dir then
    some { fs with files := setFile fs.files (dir ++ [nome]) conteudo }
  else none

/-- Content of the file at `p`, if any. -/
def lookupFile (fs : FileSystem) (p : List String) : Option String :=
  match fs.files.find? (fun q => q.1 == p) with
  | some q => some q.2
  | none => none

/-- `escreve_json_score` (main.py lines 54-60): create the missing parents
of the output path, then open for writing and dump the data as JSON. -/
def escreve_json_score (fs : FileSystem) (dir : List String) (nome : String)
    (data : Json) : Option FileSystem :=
  openWrite (mkdirParents fs dir) dir nome (json_dumps data)

/-- The whole `__main__` run after startup checks (main.py lines 171-217),
parameterised by the directory listing, the file contents, the rubric and
the model's replies: load the essays, evaluate them all, print the last
per-essay record, and persist the aggregate as JSON.  Returns the final
file system and the written text, or `none` when the run aborts with
nothing written.  When the essay loop ran zero times, the unconditional
`print(avaliacao_redacao)` at main.py line 213 reads a variable that was
never assigned and raises an uncaught `NameError`, aborting before
`escreve_json_score`: that is the `some [] => none` branch. -/
def mainRun (prompts : List Prompt) (listagem : List String)
    (conteudos : String → String)
    (rubric : List (String × List (String × String)))
    (modelo : String → String → String)
    (fs : FileSystem) (dir : List String) : Option (FileSystem × String) :=
  let redacoes := ler_redacao listagem conteudos
  match processaTodas prompts rubric modelo redacoes with
  | some [] => none
  | some ag =>
    (escreve_json_score fs dir "resultado_nota.json" (encodeRegistrosJson ag)).map
      fun fs2 => (fs2, json_dumps (encodeRegistrosJson ag))
  | none => none

/-- `Int.tdiv` of a rational's numerator by its denominator is truncation
toward zero: floor for nonnegative arguments, ceiling for negative ones. -/
theorem tdiv_num_den_eq_trunc (q : ℚ) :
    q.num.tdiv q.den = if 0 ≤ q then ⌊q⌋ else ⌈q⌉ := by
  by_cases h : 0 ≤ q
  · rw [if_pos h]
    have hn : 0 ≤ q.num := Rat.num_nonneg.2 h
    rw [Int.tdiv_eq_ediv hn (by positivity), Rat.floor_def]
  · rw [if_neg h]
    have hq : q < 0 := lt_of_not_le h
    have hn : q.num < 0 := Rat.num_neg.2 hq
    have h1 : q.num.tdiv q.den = -((-q.num).tdiv q.den) := by
      rw [Int.neg_tdiv, Int.neg_neg]
    have h2 : (-q.num).tdiv q.den = (-q.num) / q.den :=
      Int.tdiv_eq_ediv (by omega) (by positivity)
    have h3 : ((-q : ℚ)).num = -q.num := Rat.neg_num q
    have h4 : ((-q : ℚ)).den = q.den := rfl
    have h5 : ⌊-q⌋ = (-q.num) / q.den := by rw [Rat.floor_def, h3, h4]
    rw [h1, h2, ← h5, Int.floor_neg, Int.neg_neg]

/-- On a filename whose stem contains no `.txt`, removing all occurrences of
`.txt` agrees with stripping the single trailing extension. -/
theorem removeTxt_append_txt (l : List Char) (h : hasTxt l = false) :
    removeTxt (l ++ ['.', 't', 'x', 't']) = l := by
  induction l with
  | nil => decide
  | cons c l' ih =>
    rcases l' with _ | ⟨a, _ | ⟨b, _ | ⟨d, tl⟩⟩⟩
    · simp [removeTxt]
    · simp only [List.cons_append, List.nil_append, removeTxt]
      simp [removeTxt]
    · simp only [List.cons_append, List.nil_append, removeTxt]
      simp [removeTxt]
    · by_cases hc : c = '.' ∧ a = 't' ∧ b = 'x' ∧ d = 't'
      · simp [hasTxt, hc] at h
      · have h' : hasTxt (a :: b :: d :: tl) = false := by
          simpa [hasTxt, hc] using h
        simp only [List.cons_append, removeTxt, if_neg hc, List.append_eq]
        have := ih h'
        simp only [List.cons_append] at this
        rw [this]

/-- Loop invariant for `loopCriterios`: the final total is the starting
total plus the sum of the scores of the newly appended entries. -/
theorem loopCriterios_invariant (rubric : List (String × List (String × String)))
    (modelo : String → String → String) (conteudo : String) :
    ∀ (ps : List Prompt) (nota : ℚ) (avs : List Avaliacao) (res : ℚ × List Avaliacao),
      loopCriterios rubric modelo conteudo ps nota avs = some res →
      ∃ new : List Avaliacao, res.2 = avs ++ new ∧
        res.1 = nota + (new.map Avaliacao.nota).sum := by
  intro ps
  induction ps with
  | nil =>
    intro nota avs res h
    simp only [loopCriterios, Option.some.injEq] at h
    exact ⟨[], by simp [← h]⟩
  | cons p ps ih =>
    intro nota avs res h
    simp only [loopCriterios] at h
    split at h
    next q hq =>
      obtain ⟨new, hnew, hsum⟩ := ih _ _ _ h
      refine ⟨⟨p.prefixo, q,
        buscaDescricao rubric p.prefixo (toString (q.num.tdiv q.den))⟩ :: new, ?_, ?_⟩
      · simpa using hnew
      · simp only [List.map_cons, List.sum_cons, hsum]
        ring
    next => exact absurd h (by simp)
    next => exact absurd h (by simp)

/-- Characters are equal only if their code points are. -/
theorem char_ne_of_toNat {c d : Char} (h : c.toNat ≠ d.toNat) : c ≠ d :=
  fun he => h (he ▸ rfl)

/-- Code point of a decimal digit character. -/
theorem digChar_toNat (k : Nat) (h : k < 10) : (digChar k).toNat = 48 + k := by
  interval_cases k <;> decide

/-- Decimal digit characters satisfy `Char.isDigit`. -/
theorem digChar_isDigit (k : Nat) (h : k < 10) : (digChar k).isDigit = true := by
  interval_cases k <;> decide

/-- `digitVal` undoes `digChar`. -/
theorem digitVal_digChar (k : Nat) (h : k < 10) : digitVal (digChar k) = k := by
  interval_cases k <;> decide

/-- Digit characters are not JSON whitespace. -/
theorem digChar_not_ws (k : Nat) (h : k < 10) : isJsonWs (digChar k) = false := by
  interval_cases k <;> decide

/-- One unfolding step of `natDigsAux`. -/
theorem natDigsAux_succ (fuel n : Nat) :
    natDigsAux (fuel + 1) n =
      if n < 10 then [digChar n] else natDigsAux fuel (n / 10) ++ [digChar (n % 10)] :=
  rfl

/-- The digit run of a natural number starts with a digit character. -/
theorem natDigsAux_head (fuel n : Nat) :
    ∃ k tl, k < 10 ∧ natDigsAux (fuel + 1) n = digChar k :: tl := by
  induction fuel generalizing n with
  | zero =>
    by_cases h : n < 10
    · exact ⟨n, [], h, by rw [natDigsAux_succ, if_pos h]⟩
    · refine ⟨n % 10, [], Nat.mod_lt _ (by omega), ?_⟩
      rw [natDigsAux_succ, if_neg h]
      rfl
  | succ fuel ih =>
    by_cases h : n < 10
    · exact ⟨n, [], h, by rw [natDigsAux_succ, if_pos h]⟩
    · obtain ⟨k, tl, hk, heq⟩ := ih (n / 10)
      refine ⟨k, tl ++ [digChar (n % 10)], hk, ?_⟩
      rw [natDigsAux_succ, if_neg h, heq]
      rfl

/-- Every character of a digit run is a digit character. -/
theorem natDigsAux_mem (fuel n : Nat) (c : Char) (hc : c ∈ natDigsAux fuel n) :
    ∃ k, k < 10 ∧ c = digChar k := by
  induction fuel generalizing n with
  | zero => simp [natDigsAux] at hc
  | succ fuel ih =>
    by_cases h : n < 10
    · simp [natDigsAux, h] at hc
      exact ⟨n, h, hc⟩
    · simp only [natDigsAux, if_neg h, List.mem_append, List.mem_singleton] at hc
      rcases hc with hc | hc
      · exact ih _ hc
      · exact ⟨n % 10, Nat.mod_lt _ (by omega), hc⟩

/-- Every character of a digit run satisfies `Char.isDigit`. -/
theorem natDigsAux_isDigit (fuel n : Nat) (c : Char) (hc : c ∈ natDigsAux fuel n) :
    c.isDigit = true := by
  obtain ⟨k, hk, rfl⟩ := natDigsAux_mem fuel n c hc
  exact digChar_isDigit k hk

/-- `readDigits` consumes exactly a digit run followed by a stopper. -/
theorem readDigits_spec (ds : List Char) (rest : List Char) (acc cnt : Nat)
    (hds : ∀ c ∈ ds, c.isDigit = true) (hrest : stopOk rest) :
    readDigits (ds ++ rest) acc cnt = (foldVal acc ds, cnt + ds.length, rest) := by
  induction ds generalizing acc cnt with
  | nil =>
    cases rest with
    | nil => simp [readDigits, foldVal]
    | cons c t =>
      have h' : c.isDigit = false := hrest
      simp [readDigits, foldVal, h']
  | cons c ds ih =>
    have hc : c.isDigit = true := hds c (by simp)
    have h1 : readDigits ((c :: ds) ++ rest) acc cnt =
        readDigits (ds ++ rest) (acc * 10 + digitVal c) (cnt + 1) := by
      simp [readDigits, hc]
    rw [h1, ih _ _ (fun d hd => hds d (by simp [hd]))]
    simp only [foldVal, List.foldl_cons, List.length_cons, Prod.mk.injEq]
    refine ⟨trivial, by omega, trivial⟩

/-- Value of the digit run of `n`, threaded through an accumulator. -/
theorem natDigsAux_foldVal (fuel : Nat) :
    ∀ n acc, n < fuel →
      foldVal acc (natDigsAux fuel n) = acc * 10 ^ (natDigsAux fuel n).length + n := by
  induction fuel with
  | zero => intro n acc h; omega
  | succ fuel ih =>
    intro n acc h
    by_cases hn : n < 10
    · simp [natDigsAux, hn, foldVal, List.foldl_cons, digitVal_digChar n hn]
    · have h10 : 10 ≤ n := by omega
      have hlt : n / 10 < fuel := by
        have := Nat.div_lt_self (by omega : 0 < n) (by omega : 1 < 10)
        omega
      simp only [natDigsAux, if_neg hn, foldVal, List.foldl_append, List.foldl_cons,
        List.foldl_nil, List.length_append, List.length_cons, List.length_nil]
      have := ih (n / 10) acc hlt
      simp only [foldVal] at this
      rw [this, digitVal_digChar _ (Nat.mod_lt _ (by omega))]
      have hdm : 10 * (n / 10) + n % 10 = n := Nat.div_add_mod n 10
      ring_nf
      omega

/-- Digit runs are bounded in length by the power of ten bounding the
value. -/
theorem natDigsAux_len_le (fuel : Nat) :
    ∀ n k, n < 10 ^ k → 1 ≤ k → (natDigsAux fuel n).length ≤ k := by
  induction fuel with
  | zero => intro n k _ _; simp [natDigsAux]
  | succ fuel ih =>
    intro n k hn hk
    by_cases h : n < 10
    · simp [natDigsAux, h]; omega
    · obtain ⟨k', rfl⟩ : ∃ k', k = k' + 1 := ⟨k - 1, by omega⟩
      have hk' : 1 ≤ k' := by
        by_contra hc
        have : k' = 0 := by omega
        subst this
        simp [pow_succ, pow_zero] at hn
        omega
      have hdiv : n / 10 < 10 ^ k' := by
        rw [Nat.div_lt_iff_lt_mul (by omega : 0 < 10)]
        calc n < 10 ^ (k' + 1) := hn
        _ = 10 ^ k' * 10 := by ring
      simp only [natDigsAux, if_neg h, List.length_append, List.length_cons,
        List.length_nil]
      have := ih (n / 10) k' hdiv hk'
      omega

/-- Digits of `n` (packaged form of the fuel lemmas). -/
theorem natChars_head (n : Nat) : ∃ k tl, k < 10 ∧ natChars n = digChar k :: tl :=
  natDigsAux_head n n

/-- All characters of `natChars` are digits. -/
theorem natChars_isDigit (n : Nat) : ∀ c ∈ natChars n, c.isDigit = true :=
  fun c hc => natDigsAux_isDigit (n + 1) n c hc

/-- `natChars` denotes its argument. -/
theorem natChars_foldVal (n : Nat) : foldVal 0 (natChars n) = n := by
  have := natDigsAux_foldVal (n + 1) n 0 (Nat.lt_succ_self n)
  simpa [natChars] using this

/-- Length bound for `natChars`. -/
theorem natChars_len_le (n k : Nat) (h : n < 10 ^ k) (hk : 1 ≤ k) :
    (natChars n).length ≤ k :=
  natDigsAux_len_le (n + 1) n k h hk

/-- Zero padding contributes nothing to the value read from zero. -/
theorem foldVal_zero_replicate (z : Nat) : foldVal 0 (List.replicate z '0') = 0 := by
  induction z with
  | zero => rfl
  | succ z ih => simpa [foldVal, List.replicate_succ, List.foldl_cons] using ih

/-- Value of a zero-padded digit run read from zero. -/
theorem foldVal_padZeros (e : Nat) (ds : List Char) :
    foldVal 0 (padZeros e ds) = foldVal 0 ds := by
  simp only [padZeros, foldVal, List.foldl_append]
  have := foldVal_zero_replicate (e - ds.length)
  simp only [foldVal] at this
  rw [this]

/-- All characters of a zero-padded digit run are digits. -/
theorem padZeros_isDigit (e : Nat) (ds : List Char)
    (h : ∀ c ∈ ds, c.isDigit = true) :
    ∀ c ∈ padZeros e ds, c.isDigit = true := by
  intro c hc
  rcases List.mem_append.1 hc with hc | hc
  · have : c = '0' := List.eq_of_mem_replicate hc
    subst this; decide
  · exact h c hc

/-- Length of a zero-padded digit run. -/
theorem padZeros_length (e : Nat) (ds : List Char) (h : ds.length ≤ e) :
    (padZeros e ds).length = e := by
  simp [padZeros]
  omega

/-- `followNum` gives a digit-scan stopper. -/
theorem followNum.toStopOk {rest : List Char} (h : followNum rest) : stopOk rest := by
  cases rest with
  | nil => trivial
  | cons c t => exact h.1

/-- The number writer and the number scanner are mutually inverse. -/
theorem parseNum_renderNum (m : Int) (e : Nat) (rest : List Char)
    (hrest : followNum rest) :
    parseNum (renderNum m e ++ rest) = some (.num m e, rest) := by
  have hdigne : ∀ j, j < 10 → digChar j ≠ '-' := by
    intro j hj
    apply char_ne_of_toNat
    rw [digChar_toNat j hj]
    show 48 + j ≠ 45
    omega
  by_cases he : e = 0
  · subst he
    have hread : readDigits (natChars m.natAbs ++ rest) 0 0 =
        (m.natAbs, (natChars m.natAbs).length, rest) := by
      rw [readDigits_spec _ _ _ _ (natChars_isDigit _) hrest.toStopOk,
        natChars_foldVal]
      simp
    have hlen : (natChars m.natAbs).length ≠ 0 := by
      obtain ⟨k, tl, hk, hnc⟩ := natChars_head m.natAbs
      rw [hnc]; simp
    by_cases hm : m < 0
    · have hrn : renderNum m 0 ++ rest = '-' :: (natChars m.natAbs ++ rest) := by
        simp [renderNum, hm]
      rw [hrn]
      simp only [parseNum, eq_self_iff_true, if_true, hread, if_neg hlen]
      cases rest with
      | nil => simp [Int.natCast_natAbs, abs_of_neg hm]
      | cons c t =>
        have hcdot : ¬(c = '.') := hrest.2
        simp [hcdot, Int.natCast_natAbs, abs_of_neg hm]
    · obtain ⟨k, tl, hk, hnc⟩ := natChars_head m.natAbs
      have hne : (digChar k = '-') = False := eq_false (hdigne k hk)
      rw [hnc] at hread
      simp only [List.cons_append] at hread
      have hrn : renderNum m 0 ++ rest = digChar k :: (tl ++ rest) := by
        simp [renderNum, hm, hnc]
      rw [hrn]
      simp only [parseNum, hne, if_false, hread, if_neg hlen]
      have hm' : (0 : Int) ≤ m := by omega
      cases rest with
      | nil => simp [Int.natCast_natAbs, abs_of_nonneg hm']
      | cons c t =>
        have hcdot : ¬(c = '.') := hrest.2
        simp [hcdot, Int.natCast_natAbs, abs_of_nonneg hm']
  · have hone : 1 ≤ e := by omega
    have hmodlt : m.natAbs % 10 ^ e < 10 ^ e := Nat.mod_lt _ (by positivity)
    have hfraclen : (padZeros e (natChars (m.natAbs % 10 ^ e))).length = e :=
      padZeros_length _ _ (natChars_len_le _ _ hmodlt hone)
    have hfracread : readDigits (padZeros e (natChars (m.natAbs % 10 ^ e)) ++ rest) 0 0 =
        (m.natAbs % 10 ^ e, e, rest) := by
      rw [readDigits_spec _ _ _ _ (padZeros_isDigit _ _ (natChars_isDigit _))
        hrest.toStopOk, foldVal_padZeros, natChars_foldVal]
      simp [hfraclen]
    have hintstop : stopOk ('.' :: (padZeros e (natChars (m.natAbs % 10 ^ e)) ++ rest)) := by
      show ('.').isDigit = false
      decide
    have hintread : readDigits ((natChars (m.natAbs / 10 ^ e)) ++
        ('.' :: (padZeros e (natChars (m.natAbs % 10 ^ e)) ++ rest))) 0 0 =
        (m.natAbs / 10 ^ e, (natChars (m.natAbs / 10 ^ e)).length,
          '.' :: (padZeros e (natChars (m.natAbs % 10 ^ e)) ++ rest)) := by
      rw [readDigits_spec _ _ _ _ (natChars_isDigit _) hintstop, natChars_foldVal]
      simp
    have hintlen : (natChars (m.natAbs / 10 ^ e)).length ≠ 0 := by
      obtain ⟨k2, tl2, hk2, hnc2⟩ := natChars_head (m.natAbs / 10 ^ e)
      rw [hnc2]; simp
    have hval : m.natAbs / 10 ^ e * 10 ^ e + m.natAbs % 10 ^ e = m.natAbs := by
      rw [Nat.mul_comm]
      exact Nat.div_add_mod m.natAbs (10 ^ e)
    by_cases hm : m < 0
    · have hrn : renderNum m e ++ rest = '-' :: ((natChars (m.natAbs / 10 ^ e)) ++
          ('.' :: (padZeros e (natChars (m.natAbs % 10 ^ e)) ++ rest))) := by
        simp [renderNum, hm, he]
      rw [hrn]
      simp only [parseNum, eq_self_iff_true, if_true, hintread, if_neg hintlen,
        hfracread, if_neg he]
      rw [hval]
      simp [Int.natCast_natAbs, abs_of_neg hm]
    · obtain ⟨k2, tl2, hk2, hnc2⟩ := natChars_head (m.natAbs / 10 ^ e)
      have hne : (digChar k2 = '-') = False := eq_false (hdigne k2 hk2)
      rw [hnc2] at hintread
      simp only [List.cons_append] at hintread
      have hrn : renderNum m e ++ rest = digChar k2 :: (tl2 ++
          ('.' :: (padZeros e (natChars (m.natAbs % 10 ^ e)) ++ rest))) := by
        simp [renderNum, hm, he, hnc2]
      rw [hrn]
      simp only [parseNum, hne, if_false, hintread, if_neg hintlen,
        eq_self_iff_true, if_true, hfracread, if_neg he]
      rw [hval]
      have hm' : (0 : Int) ≤ m := by omega
      simp [Int.natCast_natAbs, abs_of_nonneg hm']

/-- `hexVal` undoes `hexDigit`. -/
theorem hexVal_hexDigit (k : Nat) (h : k < 16) : hexVal (hexDigit k) = some k := by
  interval_cases k <;> decide

/-- Escaping does not shrink a string body. -/
theorem escapeChars_length (s : List Char) : s.length ≤ (escapeChars s).length := by
  induction s with
  | nil => simp [escapeChars]
  | cons c s ih =>
    have h1 : 1 ≤ (escapeChar c).length := by
      unfold escapeChar
      split_ifs <;> simp
    simp only [escapeChars, List.length_append, List.length_cons]
    omega

/-- The string-body writer and scanner are mutually inverse: unescaping the
escaped body up to the closing quote restores the body and the rest. -/
theorem parseStrAux_escape (s : List Char) (rest : List Char) (fuel : Nat)
    (hfuel : s.length < fuel) :
    parseStrAux fuel (escapeChars s ++ ('"' :: rest)) = some (s, rest) := by
  induction s generalizing fuel with
  | nil =>
    obtain ⟨f, rfl⟩ : ∃ f, fuel = f + 1 := ⟨fuel - 1, by omega⟩
    simp [escapeChars, parseStrAux]
  | cons c s ih =>
    obtain ⟨f, rfl⟩ : ∃ f, fuel = f + 1 := ⟨fuel - 1, by omega⟩
    have hf : s.length < f := by
      simp only [List.length_cons] at hfuel
      omega
    by_cases h1 : c = '"'
    · subst h1; simp [escapeChars, escapeChar, parseStrAux, ih f hf]
    · by_cases h2 : c = '\\'
      · subst h2; simp [escapeChars, escapeChar, parseStrAux, ih f hf]
      · by_cases h3 : c = '\x08'
        · subst h3; simp [escapeChars, escapeChar, parseStrAux, ih f hf]
        · by_cases h4 : c = '\t'
          · subst h4; simp [escapeChars, escapeChar, parseStrAux, ih f hf]
          · by_cases h5 : c = '\n'
            · subst h5; simp [escapeChars, escapeChar, parseStrAux, ih f hf]
            · by_cases h6 : c = '\x0c'
              · subst h6; simp [escapeChars, escapeChar, parseStrAux, ih f hf]
              · by_cases h7 : c = '\r'
                · subst h7; simp [escapeChars, escapeChar, parseStrAux, ih f hf]
                · by_cases h8 : c.toNat < 32
                  · have hhi : c.toNat / 16 < 16 := by omega
                    have hlo : c.toNat % 16 < 16 := by omega
                    have harith : ((0 * 16 + 0) * 16 + c.toNat / 16) * 16 + c.toNat % 16
                        = c.toNat := by omega
                    have h0 : hexVal '0' = some 0 := by decide
                    simp [escapeChars, escapeChar, h1, h2, h3, h4, h5, h6, h7, h8,
                      parseStrAux, h0, hexVal_hexDigit _ hhi, hexVal_hexDigit _ hlo,
                      harith, Char.ofNat_toNat, ih f hf]
                    rw [show c.toNat / 16 * 16 + c.toNat % 16 = c.toNat from by omega,
                      Char.ofNat_toNat]
                  · simp [escapeChars, escapeChar, h1, h2, h3, h4, h5, h6, h7, h8,
                      parseStrAux, ih f hf]

/-- `skipWs` does not move past a non-whitespace head. -/
theorem skipWs_cons_false {c : Char} (cs : List Char) (h : isJsonWs c = false) :
    skipWs (c :: cs) = c :: cs := by
  simp [skipWs, h]

/-- `skipWs` absorbs any all-whitespace prefix. -/
theorem skipWs_ws_absorb (w : List Char) (hw : ∀ c ∈ w, isJsonWs c = true) :
    ∀ cs, skipWs (w ++ cs) = skipWs cs := by
  induction w with
  | nil => intro cs; rfl
  | cons c w ih =>
    intro cs
    have hc : isJsonWs c = true := hw c (by simp)
    simp only [List.cons_append, skipWs, hc, if_true]
    exact ih (fun d hd => hw d (by simp [hd])) cs

/-- Indentation blocks are all whitespace. -/
theorem spacesN_ws (n : Nat) : ∀ c ∈ spacesN n, isJsonWs c = true := by
  intro c hc
  have : c = ' ' := List.eq_of_mem_replicate hc
  subst this
  decide

/-- Character-level facts about decimal digit characters against all JSON
delimiters that matter for token dispatch. -/
theorem digChar_delims (k : Nat) (h : k < 10) :
    isJsonWs (digChar k) = false ∧ digChar k ≠ '"' ∧ digChar k ≠ 't' ∧
      digChar k ≠ 'f' ∧ digChar k ≠ 'n' ∧ digChar k ≠ '[' ∧
      digChar k ≠ lbraceC ∧ digChar k ≠ ']' := by
  interval_cases k <;> refine ⟨by decide, by decide, by decide, by decide,
    by decide, by decide, by decide, by decide⟩

/-- The first character a rendered number puts on the wire is a minus sign
or a digit; in particular it is not whitespace and not any token-dispatch
delimiter. -/
theorem renderNum_head (m : Int) (e : Nat) :
    ∃ c tl, renderNum m e = c :: tl ∧ isJsonWs c = false ∧ c ≠ '"' ∧
      c ≠ 't' ∧ c ≠ 'f' ∧ c ≠ 'n' ∧ c ≠ '[' ∧ c ≠ lbraceC ∧ c ≠ ']' := by
  by_cases hm : m < 0
  · by_cases he : e = 0
    · subst he
      exact ⟨'-', natChars m.natAbs, by simp [renderNum, hm], by decide, by decide,
        by decide, by decide, by decide, by decide, by decide, by decide⟩
    · exact ⟨'-', natChars (m.natAbs / 10 ^ e) ++
        '.' :: padZeros e (natChars (m.natAbs % 10 ^ e)),
        by simp [renderNum, hm, he], by decide, by decide, by decide, by decide,
        by decide, by decide, by decide, by decide⟩
  · by_cases he : e = 0
    · subst he
      obtain ⟨k, tl, hk, hnc⟩ := natChars_head m.natAbs
      obtain ⟨hws, hd⟩ := digChar_delims k hk
      exact ⟨digChar k, tl, by simp [renderNum, hm, hnc], hws, hd.1, hd.2.1,
        hd.2.2.1, hd.2.2.2.1, hd.2.2.2.2.1, hd.2.2.2.2.2.1, hd.2.2.2.2.2.2⟩
    · obtain ⟨k, tl, hk, hnc⟩ := natChars_head (m.natAbs / 10 ^ e)
      obtain ⟨hws, hd⟩ := digChar_delims k hk
      refine ⟨digChar k, tl ++ '.' :: padZeros e (natChars (m.natAbs % 10 ^ e)),
        ?_, hws, hd.1, hd.2.1, hd.2.2.1, hd.2.2.2.1, hd.2.2.2.2.1,
        hd.2.2.2.2.2.1, hd.2.2.2.2.2.2⟩
      simp [renderNum, hm, he, hnc]

/-- The first character of any rendered JSON value is not whitespace and
is not a closing bracket. -/
theorem renderJson_head (v : Json) (lvl : Nat) :
    ∃ c tl, renderJson v lvl = c :: tl ∧ isJsonWs c = false ∧ c ≠ ']' := by
  cases v with
  | null => exact ⟨'n', _, rfl, by decide, by decide⟩
  | bool b =>
    cases b with
    | true => exact ⟨'t', _, rfl, by decide, by decide⟩
    | false => exact ⟨'f', _, rfl, by decide, by decide⟩
  | num m e =>
    obtain ⟨c, tl, heq, hws, _, _, _, _, _, _, hrb⟩ := renderNum_head m e
    exact ⟨c, tl, by rw [renderJson, heq], hws, hrb⟩
  | str s => exact ⟨'"', _, rfl, by decide, by decide⟩
  | arr xs =>
    cases xs with
    | nil => exact ⟨'[', _, rfl, by decide, by decide⟩
    | cons x tl => exact ⟨'[', _, rfl, by decide, by decide⟩
  | obj ms =>
    cases ms with
    | onil => exact ⟨lbraceC, _, rfl, by decide, by decide⟩
    | ocons k v tl => exact ⟨lbraceC, _, rfl, by decide, by decide⟩

/-- `skipWs` is the identity in front of a rendered value. -/
theorem skipWs_renderJson (v : Json) (lvl : Nat) (rest : List Char) :
    skipWs (renderJson v lvl ++ rest) = renderJson v lvl ++ rest := by
  obtain ⟨c, tl, heq, hws, _⟩ := renderJson_head v lvl
  rw [heq, List.cons_append, skipWs_cons_false _ hws]

/-- The value parser ignores a leading all-whitespace block. -/
theorem parseVal_ws (fuel : Nat) (w cs : List Char)
    (hw : ∀ c ∈ w, isJsonWs c = true) :
    parseVal fuel (w ++ cs) = parseVal fuel cs := by
  cases fuel with
  | zero => rfl
  | succ f => rw [parseVal, parseVal, skipWs_ws_absorb w hw cs]

/-- The item parser ignores a leading all-whitespace block. -/
theorem parseItems_ws (fuel : Nat) (w cs : List Char)
    (hw : ∀ c ∈ w, isJsonWs c = true) :
    parseItems fuel (w ++ cs) = parseItems fuel cs := by
  cases fuel with
  | zero => rfl
  | succ f => rw [parseItems, parseItems, parseVal_ws f w cs hw]

/-- The member parser ignores a leading all-whitespace block. -/
theorem parseMembers_ws (fuel : Nat) (w cs : List Char)
    (hw : ∀ c ∈ w, isJsonWs c = true) :
    parseMembers fuel (w ++ cs) = parseMembers fuel cs := by
  cases fuel with
  | zero => rfl
  | succ f => rw [parseMembers, parseMembers, skipWs_ws_absorb w hw cs]

/-- Every value has positive size. -/
theorem sizeJ_pos (v : Json) : 1 ≤ sizeJ v := by
  cases v <;> simp [sizeJ]

/-- The shape of a nonempty rendered item list: indentation, first value,
then a remainder. -/
theorem renderItems_cons_shape (x : Json) (tl : JsonList) (lvl : Nat) :
    ∃ B, renderItems (.cons x tl) lvl = spacesN (4 * lvl) ++ (renderJson x lvl ++ B) := by
  cases tl with
  | nil => exact ⟨[], by rw [renderItems]; simp⟩
  | cons y tl2 => exact ⟨',' :: '\n' :: renderItems (.cons y tl2) lvl, by rw [renderItems]⟩

/-- The shape of a nonempty rendered member list: indentation, quoted key,
key separator, first value, then a remainder. -/
theorem renderMembers_cons_shape (k : String) (v : Json) (tl : JsonObj) (lvl : Nat) :
    ∃ B, renderMembers (.ocons k v tl) lvl =
      spacesN (4 * lvl) ++ (renderStr k ++ (':' :: ' ' :: (renderJson v lvl ++ B))) := by
  cases tl with
  | onil => exact ⟨[], by rw [renderMembers]; simp⟩
  | ocons k2 v2 tl2 =>
    exact ⟨',' :: '\n' :: renderMembers (.ocons k2 v2 tl2) lvl, by rw [renderMembers]⟩

/-- `skipWs` moves past a whitespace head. -/
theorem skipWs_cons_true {c : Char} (cs : List Char) (h : isJsonWs c = true) :
    skipWs (c :: cs) = skipWs cs := by
  simp [skipWs, h]

/-- The shape of a rendered string literal followed by anything. -/
theorem renderStr_shape (k : String) (X : List Char) :
    renderStr k ++ X = '"' :: (escapeChars k.data ++ ('"' :: X)) := by
  simp [renderStr]

/-- `skipWs` shortcuts for the concrete separator characters. -/
theorem skipWs_newline (cs : List Char) : skipWs ('\n' :: cs) = skipWs cs :=
  skipWs_cons_true cs (by decide)

/-- `skipWs` stops at a closing bracket. -/
theorem skipWs_rbracket (cs : List Char) : skipWs (']' :: cs) = ']' :: cs :=
  skipWs_cons_false cs (by decide)

/-- `skipWs` stops at a comma. -/
theorem skipWs_comma (cs : List Char) : skipWs (',' :: cs) = ',' :: cs :=
  skipWs_cons_false cs (by decide)

/-- `skipWs` stops at a colon. -/
theorem skipWs_colon (cs : List Char) : skipWs (':' :: cs) = ':' :: cs :=
  skipWs_cons_false cs (by decide)

/-- `skipWs` stops at a closing brace. -/
theorem skipWs_rbrace (cs : List Char) : skipWs (rbraceC :: cs) = rbraceC :: cs :=
  skipWs_cons_false cs (by decide)

/-- `skipWs` absorbs an indentation block. -/
theorem skipWs_spacesN (w : Nat) (cs : List Char) :
    skipWs (spacesN w ++ cs) = skipWs cs :=
  skipWs_ws_absorb _ (spacesN_ws w) cs

/-- A newline may follow a rendered number. -/
theorem followNum_newline (cs : List Char) : followNum ('\n' :: cs) :=
  ⟨by decide, by decide⟩

/-- A comma may follow a rendered number. -/
theorem followNum_comma (cs : List Char) : followNum (',' :: cs) :=
  ⟨by decide, by decide⟩

/-- Core induction for the JSON round trip: with enough fuel, parsing a
rendered value (or a rendered, bracket-terminated item/member list)
consumes exactly the rendered text and returns the original data. -/
theorem parse_render_all : ∀ fuel : Nat,
    (∀ (v : Json) (lvl : Nat) (rest : List Char), sizeJ v ≤ fuel → followNum rest →
      parseVal fuel (renderJson v lvl ++ rest) = some (v, rest)) ∧
    (∀ (xs : JsonList) (lvl w : Nat) (rest : List Char), xs ≠ .nil → sizeL xs ≤ fuel →
      parseItems fuel (renderItems xs lvl ++ ('\n' :: (spacesN w ++ (']' :: rest)))) =
        some (xs, rest)) ∧
    (∀ (ms : JsonObj) (lvl w : Nat) (rest : List Char), ms ≠ .onil → sizeO ms ≤ fuel →
      parseMembers fuel (renderMembers ms lvl ++ ('\n' :: (spacesN w ++ (rbraceC :: rest)))) =
        some (ms, rest)) := by
  intro fuel
  induction fuel with
  | zero =>
    refine ⟨fun v lvl rest hsz _ => absurd hsz (by have := sizeJ_pos v; omega), ?_, ?_⟩
    · intro xs lvl w rest hne hsz
      cases xs with
      | nil => exact absurd rfl hne
      | cons x tl => simp only [sizeL] at hsz; omega
    · intro ms lvl w rest hne hsz
      cases ms with
      | onil => exact absurd rfl hne
      | ocons k v tl => simp only [sizeO] at hsz; omega
  | succ f ih =>
    obtain ⟨IH1, IH2, IH3⟩ := ih
    refine ⟨?_, ?_, ?_⟩
    · -- values
      intro v lvl rest hsz hrest
      cases v with
      | null =>
        rw [renderJson, parseVal]
        simp [skipWs, isJsonWs]
      | bool b =>
        cases b with
        | true =>
          rw [renderJson, parseVal]
          simp [skipWs, isJsonWs]
        | false =>
          rw [renderJson, parseVal]
          simp [skipWs, isJsonWs]
      | num m e =>
        obtain ⟨c, ctl, heq, hws, hq, ht, hf2, hn, hbr, hbrace, _⟩ := renderNum_head m e
        rw [renderJson, parseVal, heq, List.cons_append, skipWs_cons_false _ hws]
        simp only [if_neg hq, if_neg ht, if_neg hf2, if_neg hn, if_neg hbr,
          if_neg hbrace]
        rw [← List.cons_append, ← heq]
        exact parseNum_renderNum m e rest hrest
      | str s =>
        rw [renderJson, renderStr_shape, parseVal,
          skipWs_cons_false _ (by decide)]
        simp only [if_pos rfl]
        have hlen : s.data.length < (escapeChars s.data ++ ('"' :: rest)).length + 1 := by
          have := escapeChars_length s.data
          simp only [List.length_append, List.length_cons]
          omega
        rw [parseStrAux_escape s.data rest _ hlen]
        rfl
      | arr xs =>
        cases xs with
        | nil =>
          rw [renderJson, parseVal]
          simp [skipWs, isJsonWs]
        | cons x tl =>
          have hsz' : sizeL (JsonList.cons x tl) ≤ f := by
            simp only [sizeJ] at hsz; omega
          obtain ⟨c, ctl, hhead, hws, hne⟩ := renderJson_head x (lvl + 1)
          obtain ⟨B, hB⟩ := renderItems_cons_shape x tl (lvl + 1)
          have hshape : renderJson (.arr (.cons x tl)) lvl ++ rest =
              '[' :: ('\n' :: (renderItems (.cons x tl) (lvl + 1) ++
                ('\n' :: (spacesN (4 * lvl) ++ (']' :: rest))))) := by
            rw [renderJson]
            simp
          have hskip : skipWs ('\n' :: (renderItems (.cons x tl) (lvl + 1) ++
              ('\n' :: (spacesN (4 * lvl) ++ (']' :: rest))))) =
              c :: (ctl ++ (B ++ ('\n' :: (spacesN (4 * lvl) ++ (']' :: rest))))) := by
            rw [skipWs_cons_true _ (by decide), hB]
            simp only [List.append_assoc]
            rw [skipWs_ws_absorb _ (spacesN_ws _), hhead, List.cons_append,
              skipWs_cons_false _ hws]
          rw [hshape, parseVal, skipWs_cons_false _ (by decide)]
          simp only [if_neg (by decide : ¬('[' : Char) = '"'),
            if_neg (by decide : ¬('[' : Char) = 't'),
            if_neg (by decide : ¬('[' : Char) = 'f'),
            if_neg (by decide : ¬('[' : Char) = 'n'),
            eq_self_iff_true, if_true, hskip, if_neg hne]
          rw [show c :: (ctl ++ (B ++ ('\n' :: (spacesN (4 * lvl) ++ (']' :: rest))))) =
              renderJson x (lvl + 1) ++ (B ++ ('\n' :: (spacesN (4 * lvl) ++ (']' :: rest))))
              from by rw [hhead, List.cons_append]]
          rw [← parseItems_ws f (spacesN (4 * (lvl + 1))) _ (spacesN_ws _)]
          rw [show spacesN (4 * (lvl + 1)) ++ (renderJson x (lvl + 1) ++
              (B ++ ('\n' :: (spacesN (4 * lvl) ++ (']' :: rest))))) =
              renderItems (.cons x tl) (lvl + 1) ++
                ('\n' :: (spacesN (4 * lvl) ++ (']' :: rest))) from by
            rw [hB]
            simp only [List.append_assoc]]
          rw [IH2 (.cons x tl) (lvl + 1) (4 * lvl) rest (by simp) hsz']
          rfl
      | obj ms =>
        cases ms with
        | onil =>
          rw [renderJson, parseVal]
          simp [skipWs, isJsonWs, lbraceC, rbraceC]
        | ocons k v tl =>
          have hsz' : sizeO (JsonObj.ocons k v tl) ≤ f := by
            simp only [sizeJ] at hsz; omega
          obtain ⟨B, hB⟩ := renderMembers_cons_shape k v tl (lvl + 1)
          have hshape : renderJson (.obj (.ocons k v tl)) lvl ++ rest =
              lbraceC :: ('\n' :: (renderMembers (.ocons k v tl) (lvl + 1) ++
                ('\n' :: (spacesN (4 * lvl) ++ (rbraceC :: rest))))) := by
            rw [renderJson]
            simp
          have hskip : skipWs ('\n' :: (renderMembers (.ocons k v tl) (lvl + 1) ++
              ('\n' :: (spacesN (4 * lvl) ++ (rbraceC :: rest))))) =
              '"' :: (escapeChars k.data ++ ('"' :: (':' :: ' ' :: (renderJson v (lvl + 1) ++
                (B ++ ('\n' :: (spacesN (4 * lvl) ++ (rbraceC :: rest)))))))) := by
            rw [skipWs_cons_true _ (by decide), hB]
            simp only [List.append_assoc]
            rw [skipWs_ws_absorb _ (spacesN_ws _), renderStr_shape,
              skipWs_cons_false _ (by decide)]
            simp only [List.append_assoc, List.cons_append]
          rw [hshape, parseVal, skipWs_cons_false _ (by decide)]
          simp only [if_neg (by decide : ¬(Char.ofNat 123) = '"'),
            if_neg (by decide : ¬(Char.ofNat 123) = 't'),
            if_neg (by decide : ¬(Char.ofNat 123) = 'f'),
            if_neg (by decide : ¬(Char.ofNat 123) = 'n'),
            if_neg (by decide : ¬(Char.ofNat 123) = '['),
            eq_self_iff_true, if_true, hskip,
            if_neg (by decide : ¬('"' : Char) = rbraceC)]
          rw [show '"' :: (escapeChars k.data ++ ('"' :: (':' :: ' ' :: (renderJson v (lvl + 1) ++
              (B ++ ('\n' :: (spacesN (4 * lvl) ++ (rbraceC :: rest)))))))) =
              renderStr k ++ (':' :: ' ' :: (renderJson v (lvl + 1) ++
                (B ++ ('\n' :: (spacesN (4 * lvl) ++ (rbraceC :: rest))))))
              from by rw [renderStr_shape]]
          rw [← parseMembers_ws f (spacesN (4 * (lvl + 1))) _ (spacesN_ws _)]
          rw [show spacesN (4 * (lvl + 1)) ++ (renderStr k ++ (':' :: ' ' :: (renderJson v (lvl + 1) ++
              (B ++ ('\n' :: (spacesN (4 * lvl) ++ (rbraceC :: rest))))))) =
              renderMembers (.ocons k v tl) (lvl + 1) ++
                ('\n' :: (spacesN (4 * lvl) ++ (rbraceC :: rest))) from by
            rw [hB]
            simp only [List.append_assoc, List.cons_append]]
          rw [IH3 (.ocons k v tl) (lvl + 1) (4 * lvl) rest (by simp) hsz']
          rfl
    · -- item lists
      intro xs lvl w rest hne hsz
      cases xs with
      | nil => exact absurd rfl hne
      | cons x tl =>
        have hszx : sizeJ x ≤ f := by simp only [sizeL] at hsz; omega
        cases tl with
        | nil =>
          have hshape : renderItems (.cons x .nil) lvl ++
              ('\n' :: (spacesN w ++ (']' :: rest))) =
              spacesN (4 * lvl) ++ (renderJson x lvl ++
                ('\n' :: (spacesN w ++ (']' :: rest)))) := by
            rw [renderItems]
            simp only [List.append_assoc]
          rw [hshape, parseItems, parseVal_ws f _ _ (spacesN_ws _),
            IH1 x lvl _ hszx (followNum_newline _)]
          simp only [skipWs_newline, skipWs_spacesN, skipWs_rbracket,
            if_neg (by decide : ¬(']' : Char) = ','), eq_self_iff_true, if_true]
        | cons y tl2 =>
          have hsztl : sizeL (JsonList.cons y tl2) ≤ f := by
            simp only [sizeL] at hsz ⊢
            omega
          have hshape : renderItems (.cons x (.cons y tl2)) lvl ++
              ('\n' :: (spacesN w ++ (']' :: rest))) =
              spacesN (4 * lvl) ++ (renderJson x lvl ++ (',' :: '\n' ::
                (renderItems (.cons y tl2) lvl ++
                  ('\n' :: (spacesN w ++ (']' :: rest)))))) := by
            rw [renderItems]
            simp only [List.append_assoc, List.cons_append]
          rw [hshape, parseItems, parseVal_ws f _ _ (spacesN_ws _),
            IH1 x lvl _ hszx (followNum_comma _)]
          simp only [skipWs_comma, eq_self_iff_true, if_true]
          rw [show ('\n' :: (renderItems (.cons y tl2) lvl ++
              ('\n' :: (spacesN w ++ (']' :: rest))))) =
              ['\n'] ++ (renderItems (.cons y tl2) lvl ++
                ('\n' :: (spacesN w ++ (']' :: rest)))) from rfl,
            parseItems_ws f ['\n'] _ (by decide),
            IH2 (.cons y tl2) lvl w rest (by simp) hsztl]
    · -- member lists
      intro ms lvl w rest hne hsz
      cases ms with
      | onil => exact absurd rfl hne
      | ocons k v tl =>
        have hszv : sizeJ v ≤ f := by simp only [sizeO] at hsz; omega
        cases tl with
        | onil =>
          have hshape : renderMembers (.ocons k v .onil) lvl ++
              ('\n' :: (spacesN w ++ (rbraceC :: rest))) =
              spacesN (4 * lvl) ++ ('"' :: (escapeChars k.data ++ ('"' :: (':' :: ' ' ::
                (renderJson v lvl ++ ('\n' :: (spacesN w ++ (rbraceC :: rest)))))))) := by
            rw [renderMembers, renderStr_shape]
            simp only [List.append_assoc, List.cons_append]
          rw [hshape, parseMembers, skipWs_spacesN,
            skipWs_cons_false _ (by decide : isJsonWs '"' = false)]
          simp only [eq_self_iff_true, if_true]
          have hlen : k.data.length < (escapeChars k.data ++ ('"' :: (':' :: ' ' ::
              (renderJson v lvl ++
                ('\n' :: (spacesN w ++ (rbraceC :: rest))))))).length + 1 := by
            have := escapeChars_length k.data
            simp only [List.length_append, List.length_cons]
            omega
          have h1 := parseStrAux_escape k.data (':' :: ' ' ::
            (renderJson v lvl ++ ('\n' :: (spacesN w ++ (rbraceC :: rest))))) _ hlen
          have h2 : parseVal f (' ' :: (renderJson v lvl ++
              ('\n' :: (spacesN w ++ (rbraceC :: rest))))) =
              some (v, '\n' :: (spacesN w ++ (rbraceC :: rest))) := by
            rw [show (' ' :: (renderJson v lvl ++
                ('\n' :: (spacesN w ++ (rbraceC :: rest))))) =
                [' '] ++ (renderJson v lvl ++
                  ('\n' :: (spacesN w ++ (rbraceC :: rest)))) from rfl,
              parseVal_ws f [' '] _ (by decide),
              IH1 v lvl _ hszv (followNum_newline _)]
          simp only [h1, skipWs_colon, h2, skipWs_newline, skipWs_spacesN,
            skipWs_rbrace, if_neg (by decide : ¬rbraceC = ','),
            eq_self_iff_true, if_true]
        | ocons k2 v2 tl2 =>
          have hsztl : sizeO (JsonObj.ocons k2 v2 tl2) ≤ f := by
            simp only [sizeO] at hsz ⊢
            omega
          have hshape : renderMembers (.ocons k v (.ocons k2 v2 tl2)) lvl ++
              ('\n' :: (spacesN w ++ (rbraceC :: rest))) =
              spacesN (4 * lvl) ++ ('"' :: (escapeChars k.data ++ ('"' :: (':' :: ' ' ::
                (renderJson v lvl ++ (',' :: '\n' ::
                  (renderMembers (.ocons k2 v2 tl2) lvl ++
                    ('\n' :: (spacesN w ++ (rbraceC :: rest)))))))))) := by
            rw [renderMembers, renderStr_shape]
            simp only [List.append_assoc, List.cons_append]
          rw [hshape, parseMembers, skipWs_spacesN,
            skipWs_cons_false _ (by decide : isJsonWs '"' = false)]
          simp only [eq_self_iff_true, if_true]
          have hlen : k.data.length < (escapeChars k.data ++ ('"' :: (':' :: ' ' ::
              (renderJson v lvl ++ (',' :: '\n' ::
                (renderMembers (.ocons k2 v2 tl2) lvl ++
                  ('\n' :: (spacesN w ++ (rbraceC :: rest))))))))).length + 1 := by
            have := escapeChars_length k.data
            simp only [List.length_append, List.length_cons]
            omega
          have h1 := parseStrAux_escape k.data (':' :: ' ' ::
            (renderJson v lvl ++ (',' :: '\n' ::
              (renderMembers (.ocons k2 v2 tl2) lvl ++
                ('\n' :: (spacesN w ++ (rbraceC :: rest))))))) _ hlen
          have h2 : parseVal f (' ' :: (renderJson v lvl ++ (',' :: '\n' ::
              (renderMembers (.ocons k2 v2 tl2) lvl ++
                ('\n' :: (spacesN w ++ (rbraceC :: rest))))))) =
              some (v, ',' :: '\n' ::
                (renderMembers (.ocons k2 v2 tl2) lvl ++
                  ('\n' :: (spacesN w ++ (rbraceC :: rest))))) := by
            rw [show (' ' :: (renderJson v lvl ++ (',' :: '\n' ::
                (renderMembers (.ocons k2 v2 tl2) lvl ++
                  ('\n' :: (spacesN w ++ (rbraceC :: rest))))))) =
                [' '] ++ (renderJson v lvl ++ (',' :: '\n' ::
                  (renderMembers (.ocons k2 v2 tl2) lvl ++
                    ('\n' :: (spacesN w ++ (rbraceC :: rest)))))) from rfl,
              parseVal_ws f [' '] _ (by decide),
              IH1 v lvl _ hszv (followNum_comma _)]
          have h3 : parseMembers f ('\n' ::
              (renderMembers (.ocons k2 v2 tl2) lvl ++
                ('\n' :: (spacesN w ++ (rbraceC :: rest))))) =
              some (JsonObj.ocons k2 v2 tl2, rest) := by
            rw [show ('\n' :: (renderMembers (.ocons k2 v2 tl2) lvl ++
                ('\n' :: (spacesN w ++ (rbraceC :: rest))))) =
                ['\n'] ++ (renderMembers (.ocons k2 v2 tl2) lvl ++
                  ('\n' :: (spacesN w ++ (rbraceC :: rest)))) from rfl,
              parseMembers_ws f ['\n'] _ (by decide),
              IH3 (.ocons k2 v2 tl2) lvl w rest (by simp) hsztl]
          simp only [h1, skipWs_colon, h2, skipWs_comma, h3,
            eq_self_iff_true, if_true]

mutual
/-- A value's node count is bounded by its rendered length. -/
theorem sizeJ_le_len (v : Json) (lvl : Nat) : sizeJ v ≤ (renderJson v lvl).length := by
  cases v with
  | null => simp [renderJson, sizeJ]
  | bool b => cases b <;> simp [renderJson, sizeJ]
  | num m e =>
    obtain ⟨c, tl, heq, _⟩ := renderNum_head m e
    simp [renderJson, sizeJ, heq]
  | str s => simp [renderJson, renderStr, sizeJ]
  | arr xs =>
    cases xs with
    | nil => simp [renderJson, sizeJ, sizeL]
    | cons x tl =>
      have h := sizeL_le_len (.cons x tl) (lvl + 1)
      simp only [renderJson, sizeJ, List.length_cons, List.length_append,
        spacesN, List.length_replicate]
      omega
  | obj ms =>
    cases ms with
    | onil => simp [renderJson, sizeJ, sizeO]
    | ocons k v tl =>
      have h := sizeO_le_len (.ocons k v tl) (lvl + 1)
      simp only [renderJson, sizeJ, List.length_cons, List.length_append,
        spacesN, List.length_replicate]
      omega
/-- An item list's node count is bounded by its rendered length plus one. -/
theorem sizeL_le_len (xs : JsonList) (lvl : Nat) :
    sizeL xs ≤ (renderItems xs lvl).length + 1 := by
  cases xs with
  | nil => simp [sizeL]
  | cons x tl =>
    cases tl with
    | nil =>
      have hx := sizeJ_le_len x lvl
      simp only [sizeL, renderItems, List.length_append, spacesN,
        List.length_replicate]
      omega
    | cons y tl2 =>
      have hx := sizeJ_le_len x lvl
      have ht := sizeL_le_len (.cons y tl2) lvl
      simp only [sizeL, renderItems, List.length_append, List.length_cons,
        spacesN, List.length_replicate] at ht ⊢
      omega
/-- A member list's node count is bounded by its rendered length plus one. -/
theorem sizeO_le_len (ms : JsonObj) (lvl : Nat) :
    sizeO ms ≤ (renderMembers ms lvl).length + 1 := by
  cases ms with
  | onil => simp [sizeO]
  | ocons k v tl =>
    cases tl with
    | onil =>
      have hv := sizeJ_le_len v lvl
      simp only [sizeO, renderMembers, List.length_append, List.length_cons,
        spacesN, List.length_replicate]
      omega
    | ocons k2 v2 tl2 =>
      have hv := sizeJ_le_len v lvl
      have ht := sizeO_le_len (.ocons k2 v2 tl2) lvl
      simp only [sizeO, renderMembers, List.length_append, List.length_cons,
        spacesN, List.length_replicate] at ht ⊢
      omega
end

/-- JSON round trip at the file level: parsing back what `json.dump` wrote
returns exactly the data that was written. -/
theorem json_loads_dumps (v : Json) : json_loads (json_dumps v) = some v := by
  unfold json_loads json_dumps
  have hdata : (⟨renderJson v 0⟩ : String).data = renderJson v 0 := rfl
  rw [hdata]
  have h := (parse_render_all ((renderJson v 0).length + 1)).1 v 0 []
    (by have := sizeJ_le_len v 0; omega) trivial
  rw [List.append_nil] at h
  rw [h]
  simp [skipWs]

/-- `escreve_json_score` always succeeds and its effect is explicit: the
parents now exist and the file holds the rendered JSON. -/
theorem escreve_total (fs : FileSystem) (dir : List String) (nome : String)
    (data : Json) :
    escreve_json_score fs dir nome data =
      some { dirs := dir.inits ++ fs.dirs,
             files := setFile fs.files (dir ++ [nome]) (json_dumps data) } := by
  unfold escreve_json_score openWrite mkdirParents dirExists
  have hmem : dir ∈ dir.inits ++ fs.dirs :=
    List.mem_append_left _ ((List.mem_inits dir dir).2 (List.prefix_refl dir))
  have hc : (dir.inits ++ fs.dirs).contains dir = true :=
    List.elem_eq_true_of_mem hmem
  simp [hc]

/-- After `setFile`, looking up the written path finds the new content. -/
theorem find_setFile (files : List (List String × String)) (p : List String)
    (c : String) :
    (setFile files p c).find? (fun q => q.1 == p) = some (p, c) := by
  induction files with
  | nil => simp [setFile, List.find?]
  | cons hd tl ih =>
    obtain ⟨q, d⟩ := hd
    by_cases h : q = p
    · subst h
      simp [setFile, List.find?]
    · simp only [setFile, if_neg h, List.find?]
      rw [show (q == p) = false from beq_eq_false_iff_ne.2 h]
      exact ih

/-- A decimal-representable value survives the number encode/decode pair. -/
theorem decodeNum_encNum (q : ℚ) (h : isDecimal q) :
    decodeNum (encNum q) = some q := by
  obtain ⟨k, hk⟩ := h
  have hden : 0 < q.den := q.den_pos
  have hknz : k ≠ 0 := by
    intro h0
    rw [h0, Nat.mul_zero] at hk
    exact absurd hk (by positivity)
  have hdiv : ((10 ^ decExp q : Nat) / q.den : Nat) = k := by
    rw [hk]
    exact Nat.mul_div_cancel_left k hden
  show some (jsonNumVal (q.num * ((10 ^ decExp q : Nat) / q.den : Nat)) (decExp q)) = some q
  rw [hdiv]
  unfold jsonNumVal
  have hcast : ((10 : Int) ^ decExp q) = (q.den : Int) * (k : Int) := by
    have := congrArg (fun n : Nat => (n : Int)) hk
    push_cast at this
    exact this
  rw [hcast, Rat.divInt_mul_right (by exact_mod_cast hknz), Rat.num_divInt_den]

/-- A criterion entry survives the encode/decode pair. -/
theorem decodeAvaliacao_enc (a : Avaliacao) (h : isDecimal a.nota) :
    decodeAvaliacao (encodeAvaliacao a) = some a := by
  obtain ⟨c, q, d⟩ := a
  simp only [encodeAvaliacao, decodeAvaliacao, decodeNum_encNum q h]
  rfl

/-- A criterion list survives the encode/decode pair. -/
theorem decodeAvaliacoes_enc (l : List Avaliacao) (h : ∀ a ∈ l, isDecimal a.nota) :
    decodeAvaliacoes (encodeAvaliacoes l) = some l := by
  induction l with
  | nil => rfl
  | cons a resto ih =>
    simp only [encodeAvaliacoes, decodeAvaliacoes,
      decodeAvaliacao_enc a (h a (by simp)), ih (fun b hb => h b (by simp [hb]))]

/-- An essay record survives the encode/decode pair. -/
theorem decodeRegistro_enc (r : AvaliacaoRedacao) (h : RegistroDecimal r) :
    decodeRegistro (encodeRegistro r) = some r := by
  obtain ⟨nome, q, avs⟩ := r
  simp only [encodeRegistro, decodeRegistro, decodeNum_encNum q h.1,
    decodeAvaliacoes_enc avs h.2]

/-- C1: for every input string that is a valid numeric literal (possibly
surrounded by whitespace) the Scorer's parser returns `float(s)`; for every
non-numeric input the parser signals the recoverable `OutputParserException`
and the calling Scorer catches exactly that condition, substituting the
score `0.0`. -/
theorem c1_parse_numeric_or_fallback (s : String) :
    (∀ v : PyFloat, pyFloat s = some v →
      NumberOutputParser_parse s = Except.ok v ∧
      avaliar_redacao (ChainOutcome.reply s) = Except.ok v) ∧
    (pyFloat s = none →
      NumberOutputParser_parse s =
        Except.error ("Expected numeric output, got: " ++ s) ∧
      avaliar_redacao (ChainOutcome.reply s) = Except.ok (PyFloat.finite 0)) := by
  have hparse : NumberOutputParser_parse s =
      match pyFloat s with
      | some v => Except.ok v
      | none => Except.error ("Expected numeric output, got: " ++ s) := rfl
  constructor
  · intro v hv
    have h1 : NumberOutputParser_parse s = Except.ok v := by rw [hparse, hv]
    exact ⟨h1, by simp [avaliar_redacao, h1]⟩
  · intro hv
    have h1 : NumberOutputParser_parse s =
        Except.error ("Expected numeric output, got: " ++ s) := by rw [hparse, hv]
    exact ⟨h1, by simp [avaliar_redacao, h1]⟩

/-- Witness for C1 at a numeric and a non-numeric input. -/
theorem c1_witness :
    (pyFloat " 42.5 " = some (.finite (Rat.divInt 425 10)) ∧
      NumberOutputParser_parse " 42.5 " = Except.ok (.finite (Rat.divInt 425 10))) ∧
    (pyFloat "not a number" = none ∧
      avaliar_redacao (ChainOutcome.reply "not a number") =
        Except.ok (PyFloat.finite 0)) :=
  ⟨⟨by decide, ((c1_parse_numeric_or_fallback " 42.5 ").1 _ (by decide)).1⟩,
   ⟨by decide, ((c1_parse_numeric_or_fallback "not a number").2 (by decide)).2⟩⟩

/-- C2: every record the aggregator loop completes satisfies the invariant
`nota_criterio = sum of the nota values of its avaliacoes entries`,
including with an empty criterion-prompt list. -/
theorem c2_nota_criterio_is_sum (prompts : List Prompt)
    (rubric : List (String × List (String × String)))
    (modelo : String → String → String) (nome conteudo : String)
    (r : AvaliacaoRedacao)
    (h : processaRedacao prompts rubric modelo nome conteudo = some r) :
    r.nota_criterio = (r.avaliacoes.map Avaliacao.nota).sum := by
  unfold processaRedacao at h
  cases hl : loopCriterios rubric modelo conteudo prompts 0 [] with
  | none => rw [hl] at h; simp at h
  | some res =>
    rw [hl] at h
    simp only [Option.map, Option.some.injEq] at h
    obtain ⟨new, hnew, hsum⟩ :=
      loopCriterios_invariant rubric modelo conteudo prompts 0 [] res hl
    rw [← h]
    simp only [hsum, hnew, List.nil_append, zero_add]

/-- Witness for C2 on one criterion scored 80. -/
theorem c2_witness :
    processaRedacao [⟨"c1", "p"⟩] [] (fun _ _ => "80") "r.txt" "texto" =
      some ⟨"r", Rat.divInt 80 1,
        [⟨"c1", Rat.divInt 80 1, descricaoPadrao "80" "c1"⟩]⟩ ∧
    (⟨"r", Rat.divInt 80 1,
        [⟨"c1", Rat.divInt 80 1, descricaoPadrao "80" "c1"⟩]⟩ :
      AvaliacaoRedacao).nota_criterio =
      (((⟨"r", Rat.divInt 80 1,
        [⟨"c1", Rat.divInt 80 1, descricaoPadrao "80" "c1"⟩]⟩ :
        AvaliacaoRedacao)).avaliacoes.map Avaliacao.nota).sum :=
  ⟨by with_unfolding_all rfl,
   c2_nota_criterio_is_sum [⟨"c1", "p"⟩] [] (fun _ _ => "80") "r.txt" "texto" _
     (by with_unfolding_all rfl)⟩

/-- C3: on the rubric table containing `c1 ↦ (80 ↦ Bom domínio)`, resolving
code `c1` at score `80.0` returns the stored description, and at score
`81.0` (key `81` absent) returns the generated placeholder, which contains
both `81` and `c1`. -/
theorem c3_rubric_lookup :
    resolveDescricao [("c1", [("80", "Bom domínio")])] "c1" (.finite 80) =
      some "Bom domínio" ∧
    resolveDescricao [("c1", [("80", "Bom domínio")])] "c1" (.finite 81) =
      some (descricaoPadrao "81" "c1") ∧
    (∃ pre mid post : String,
      descricaoPadrao "81" "c1" = pre ++ "81" ++ mid ++ "c1" ++ post) := by
  refine ⟨by decide, by decide,
    ⟨"Descrição não encontrada para ", " em ", "", by decide⟩⟩

/-- C4 counterexample: `replace('.txt', '')` removes every occurrence, not
only the trailing extension, so on `redacao.txt.txt` the display name is
`redacao`, not the extension-stripped `redacao.txt`. -/
theorem c4_counterexample :
    displayName "redacao.txt.txt" = "redacao" ∧
    stripTxtExtension "redacao.txt.txt" = "redacao.txt" ∧
    displayName "redacao.txt.txt" ≠ stripTxtExtension "redacao.txt.txt" := by
  refine ⟨by decide, by decide, by decide⟩

/-- C4 (amended): for filenames whose stem contains no `.txt`, the display
name is the filename with the trailing `.txt` removed and the rest
unchanged; in general the aggregator removes every occurrence of `.txt`. -/
theorem c4_display_name (stem : String) (h : hasTxt stem.data = false) :
    displayName (stem ++ ".txt") = stem := by
  unfold displayName
  rw [String.data_append,
    show (".txt" : String).data = ['.', 't', 'x', 't'] from rfl,
    removeTxt_append_txt stem.data h]

/-- Witness for the amended C4. -/
theorem c4_witness :
    hasTxt "redacao".data = false ∧ displayName ("redacao" ++ ".txt") = "redacao" :=
  ⟨by decide, c4_display_name "redacao" (by decide)⟩

/-- C5 counterexample: the Scorer can return an infinite score (model reply
`inf`), and for it the aggregator forms no rubric key at all — the integer
cast raises instead. -/
theorem c5_counterexample :
    avaliarTexto "inf" = PyFloat.inf false ∧
    chaveScore (avaliarTexto "inf") = none := by
  decide

/-- C5 (amended): for every finite score the aggregator forms the rubric
key as the decimal string of the score truncated toward zero (floor for
nonnegative, ceiling for negative scores); e.g. 83.7 yields "83" and -1.5
yields "-1". -/
theorem c5_score_key :
    (∀ q : ℚ, chaveScore (PyFloat.finite q) =
      some (toString (if 0 ≤ q then ⌊q⌋ else ⌈q⌉))) ∧
    chaveScore (PyFloat.finite (Rat.divInt 837 10)) = some "83" ∧
    chaveScore (PyFloat.finite (Rat.divInt (-3) 2)) = some "-1" := by
  refine ⟨fun q => ?_, by decide, by decide⟩
  have h : chaveScore (PyFloat.finite q) = some (toString (q.num.tdiv q.den)) := rfl
  rw [h, tdiv_num_den_eq_trunc]

/-- C6: the essay loader keeps exactly the directory entries ending in
`.txt` (with their contents), skipping all others; when no `.txt` entry
exists it returns an empty mapping and the non-fatal warning fires — but
the claimed "run still completes, writing the empty JSON array `[]`" is
false of the code: with zero essays the loop at main.py lines 178-210
never assigns `avaliacao_redacao`, so the unconditional
`print(avaliacao_redacao)` at line 213 raises an uncaught `NameError` and
the run aborts before `escreve_json_score` — nothing is written. -/
theorem c6_zero_txt_no_output (listagem : List String)
    (conteudos : String → String) (prompts : List Prompt)
    (rubric : List (String × List (String × String)))
    (modelo : String → String → String) (fs : FileSystem) (dir : List String) :
    (∀ nome c, (nome, c) ∈ ler_redacao listagem conteudos ↔
      (nome ∈ listagem ∧ pyEndsWith nome ".txt" = true ∧ c = conteudos nome)) ∧
    ((∀ nome ∈ listagem, pyEndsWith nome ".txt" = false) →
      ler_redacao listagem conteudos = [] ∧
      avisoSemRedacoes (ler_redacao listagem conteudos) = true ∧
      mainRun prompts listagem conteudos rubric modelo fs dir = none) := by
  constructor
  · intro nome c
    constructor
    · intro h
      simp only [ler_redacao, List.mem_map, List.mem_filter] at h
      obtain ⟨a, ⟨hmem, hend⟩, heq⟩ := h
      injection heq with h1 h2
      subst h1
      exact ⟨hmem, hend, h2.symm⟩
    · rintro ⟨h1, h2, rfl⟩
      simp only [ler_redacao, List.mem_map, List.mem_filter]
      exact ⟨nome, ⟨h1, h2⟩, rfl⟩
  · intro hall
    have hfilter : listagem.filter (fun nome => pyEndsWith nome ".txt") = [] := by
      rw [List.filter_eq_nil_iff]
      intro a ha
      simp [hall a ha]
    have hler : ler_redacao listagem conteudos = [] := by
      simp [ler_redacao, hfilter]
    refine ⟨hler, by simp [avisoSemRedacoes, hler], ?_⟩
    unfold mainRun
    rw [hler]
    rfl

/-- Witness for C6 on a listing with no `.txt` entry: the loader returns
the empty mapping, the warning fires, and the run aborts with nothing
written. -/
theorem c6_witness :
    ler_redacao ["a.pdf", "notes"] (fun _ => "x") = [] ∧
    avisoSemRedacoes (ler_redacao ["a.pdf", "notes"] (fun _ => "x")) = true ∧
    mainRun [⟨"c1", "p"⟩] ["a.pdf", "notes"] (fun _ => "x") []
      (fun _ _ => "0") ⟨[], []⟩ ["base"] = none :=
  (c6_zero_txt_no_output ["a.pdf", "notes"] (fun _ => "x") [⟨"c1", "p"⟩] []
    (fun _ _ => "0") ⟨[], []⟩ ["base"]).2 (by decide)

/-- C7: writing an essay-record sequence with `escreve_json_score` and
parsing the written file back as JSON yields exactly the data that was
written, and that data faithfully represents the records (decoding returns
the original sequence).  The hypothesis — every score is a fixed-point
decimal — holds for every value a Python binary float can carry. -/
theorem c7_json_roundtrip (rs : List AvaliacaoRedacao)
    (h : ∀ r ∈ rs, RegistroDecimal r) (fs : FileSystem) (dir : List String)
    (nome : String) :
    (∃ fs2, escreve_json_score fs dir nome (encodeRegistrosJson rs) = some fs2 ∧
      lookupFile fs2 (dir ++ [nome]) = some (json_dumps (encodeRegistrosJson rs))) ∧
    json_loads (json_dumps (encodeRegistrosJson rs)) = some (encodeRegistrosJson rs) ∧
    decodeRegistros (encodeRegistrosJson rs) = some rs := by
  refine ⟨⟨_, escreve_total fs dir nome _, ?_⟩, json_loads_dumps _, ?_⟩
  · unfold lookupFile
    rw [find_setFile]
  · show decodeRegistrosList (encodeRegistros rs) = some rs
    induction rs with
    | nil => rfl
    | cons r resto ih =>
      simp only [encodeRegistros, decodeRegistrosList,
        decodeRegistro_enc r (h r (by simp)), ih (fun x hx => h x (by simp [hx]))]

/-- Witness for C7 on a one-record sequence. -/
theorem c7_witness :
    (∃ fs2, escreve_json_score ⟨[], []⟩ ["base"] "resultado_nota.json"
        (encodeRegistrosJson [⟨"r", Rat.divInt 80 1,
          [⟨"c1", Rat.divInt 80 1, "desc"⟩]⟩]) = some fs2 ∧
      lookupFile fs2 (["base"] ++ ["resultado_nota.json"]) =
        some (json_dumps (encodeRegistrosJson [⟨"r", Rat.divInt 80 1,
          [⟨"c1", Rat.divInt 80 1, "desc"⟩]⟩]))) ∧
    json_loads (json_dumps (encodeRegistrosJson [⟨"r", Rat.divInt 80 1,
        [⟨"c1", Rat.divInt 80 1, "desc"⟩]⟩])) =
      some (encodeRegistrosJson [⟨"r", Rat.divInt 80 1,
        [⟨"c1", Rat.divInt 80 1, "desc"⟩]⟩]) ∧
    decodeRegistros (encodeRegistrosJson [⟨"r", Rat.divInt 80 1,
        [⟨"c1", Rat.divInt 80 1, "desc"⟩]⟩]) =
      some [⟨"r", Rat.divInt 80 1, [⟨"c1", Rat.divInt 80 1, "desc"⟩]⟩] :=
  c7_json_roundtrip [⟨"r", Rat.divInt 80 1, [⟨"c1", Rat.divInt 80 1, "desc"⟩]⟩]
    (by
      intro r hr
      simp only [List.mem_singleton] at hr
      subst hr
      refine ⟨show isDecimal (Rat.divInt 80 1) by unfold isDecimal; decide, ?_⟩
      intro a ha
      simp only [List.mem_singleton] at ha
      subst ha
      show isDecimal (Rat.divInt 80 1)
      unfold isDecimal
      decide)
    ⟨[], []⟩ ["base"] "resultado_nota.json"

/-- C8: there are model replies — `inf` and `nan` — that the Scorer's
parser accepts as floats (so no 0.0 fallback occurs) but for which the
aggregator's integer cast raises, aborting the whole run with no output
JSON written. -/
theorem c8_inf_nan_abort :
    NumberOutputParser_parse "inf" = Except.ok (PyFloat.inf false) ∧
    NumberOutputParser_parse "nan" = Except.ok PyFloat.nan ∧
    chaveScore (PyFloat.inf false) = none ∧
    chaveScore PyFloat.nan = none ∧
    mainRun [⟨"c1", "p"⟩] ["e.txt"] (fun _ => "texto") [] (fun _ _ => "inf")
      ⟨[], []⟩ ["base"] = none ∧
    mainRun [⟨"c1", "p"⟩] ["e.txt"] (fun _ => "texto") [] (fun _ _ => "nan")
      ⟨[], []⟩ ["base"] = none := by
  refine ⟨rfl, rfl, rfl, rfl, rfl, rfl⟩

/-- C9: rubric description resolution is total in the criterion code: when
the code itself is absent from the table, the generated placeholder is
returned (no exception), for every finite score. -/
theorem c9_missing_code_total (tab : List (String × List (String × String)))
    (code : String) (q : ℚ) (h : dictGet tab code = none) :
    resolveDescricao tab code (.finite q) =
      some (descricaoPadrao (toString (q.num.tdiv q.den)) code) := by
  have h1 : resolveDescricao tab code (.finite q) =
      some (buscaDescricao tab code (toString (q.num.tdiv q.den))) := rfl
  rw [h1]
  unfold buscaDescricao
  rw [h]

/-- Witness for C9 with an absent code and score 37.5. -/
theorem c9_witness :
    dictGet [("c1", [("80", "x")])] "zz" = none ∧
    toString (((Rat.divInt 75 2 : ℚ)).num.tdiv ((Rat.divInt 75 2 : ℚ)).den) = "37" ∧
    resolveDescricao [("c1", [("80", "x")])] "zz" (.finite (Rat.divInt 75 2)) =
      some (descricaoPadrao
        (toString (((Rat.divInt 75 2 : ℚ)).num.tdiv ((Rat.divInt 75 2 : ℚ)).den)) "zz") :=
  ⟨by decide, by decide,
   c9_missing_code_total [("c1", [("80", "x")])] "zz" (Rat.divInt 75 2) (by decide)⟩

/-- C10: `escreve_json_score` creates the missing parent directories before
writing, so the write cannot fail on an absent parent, and it overwrites
whatever file was at the path with the new content. -/
theorem c10_escreve_creates_and_overwrites (fs : FileSystem) (dir : List String)
    (nome : String) (data : Json) :
    ∃ fs2, escreve_json_score fs dir nome data = some fs2 ∧
      lookupFile fs2 (dir ++ [nome]) = some (json_dumps data) ∧
      ∀ d, d ∈ dir.inits → dirExists fs2 d = true := by
  refine ⟨_, escreve_total fs dir nome data, ?_, ?_⟩
  · unfold lookupFile
    rw [find_setFile]
  · intro d hd
    unfold dirExists
    exact List.elem_eq_true_of_mem (List.mem_append_left _ hd)

/-- Witness for C10: writing over an existing file with absent parents. -/
theorem c10_witness :
    ∃ fs2, escreve_json_score ⟨[], [(["out", "resultado_nota.json"], "old")]⟩
        ["out"] "resultado_nota.json" (.arr .nil) = some fs2 ∧
      lookupFile fs2 (["out"] ++ ["resultado_nota.json"]) =
        some (json_dumps (.arr .nil)) ∧
      ∀ d, d ∈ (["out"] : List String).inits → dirExists fs2 d = true :=
  c10_escreve_creates_and_overwrites ⟨[], [(["out", "resultado_nota.json"], "old")]⟩
    ["out"] "resultado_nota.json" (.arr .nil)
